import Mathlib

/-!
Shallow embedding of `doxxer.py` (the `Geolocator` class of the doxxer
IP-geolocation tool) together with proofs about its behaviour.

Conventions of the embedding:
* Python strings are Lean `String`s, handled mostly through their
  character lists.
* The regexes of `validate_input` are embedded as executable matchers on
  `List Char`; `\d` is modelled as an ASCII decimal digit.  Python's `$`
  anchor also matches just before one final newline, which the embedding
  reproduces (`matchDollar`).
* The network is an oracle `String → Option String → HttpResult` mapping a
  URL and the optional `key` parameter to either a raised
  `requests.RequestException` (carrying its message) or a response with a
  status code, the message of the `HTTPError` that `raise_for_status`
  would raise, and an already-decoded JSON body.
* `concurrent.futures` values are modelled by the records they resolve
  to: lookups are deterministic functions of the oracle, so a future's
  `result()` is just that value.
-/

namespace Doxxer

/-! ### Character classes used by `validate_input` and `str.strip` -/

/-- ASCII decimal digit, modelling `\d` of the two validation regexes. -/
def isAsciiDigit (c : Char) : Bool := '0' ≤ c && c ≤ '9'

/-- ASCII letter, modelling `[a-zA-Z]`. -/
def isAsciiAlpha (c : Char) : Bool := ('a' ≤ c && c ≤ 'z') || ('A' ≤ c && c ≤ 'Z')

/-- The character class `[a-zA-Z0-9.-]` of the domain regex. -/
def isDomainChar (c : Char) : Bool := isAsciiAlpha c || isAsciiDigit c || c == '.' || c == '-'

/-- Whitespace removed by Python `str.strip()` (the ASCII whitespace set). -/
def isPySpace (c : Char) : Bool :=
  c == ' ' || c == '\t' || c == '\n' || c == '\r' || c == '\x0b' || c == '\x0c'

/-- Python `str.strip()`: drop leading and trailing whitespace. -/
def pyStrip (s : String) : String :=
  String.mk (((s.data.dropWhile isPySpace).reverse.dropWhile isPySpace).reverse)

/-! ### The IPv4 regex `^\d{1,3}\.\d{1,3}\.\d{1,3}\.\d{1,3}$`

The matcher consumes a maximal digit run for each `\d{1,3}` group.  This is
equivalent to the regex with backtracking: the character after a group must
be a dot (or the end), which is not a digit, so the group must consume the
whole digit run, and the run must have length 1..3. -/

/-- Split off the leading digit run. -/
def octetSplit (l : List Char) : List Char × List Char :=
  (l.takeWhile isAsciiDigit, l.dropWhile isAsciiDigit)

/-- A digit run acceptable to `\d{1,3}`: nonempty, at most three characters. -/
def octetOk (o : List Char) : Bool := !o.isEmpty && decide (o.length ≤ 3)

/-- Match `k` further groups `\.\d{1,3}` and then the end of the string. -/
def ipGroups : Nat → List Char → Bool
  | 0, l => l.isEmpty
  | _ + 1, [] => false
  | k + 1, c :: l' =>
    c == '.' && (octetOk (octetSplit l').1 && ipGroups k (octetSplit l').2)

/-- Matcher for the body of the IPv4 regex (everything between `^` and `$`). -/
def ipCore (l : List Char) : Bool :=
  let (o, r) := octetSplit l
  octetOk o && ipGroups 3 r

/-! ### The domain regex `^[a-zA-Z0-9.-]+\.[a-zA-Z]{2,}$` -/

/-- Matcher for `[a-zA-Z]{2,}$`: at least two letters up to the end. -/
def tldOk (t : List Char) : Bool := decide (2 ≤ t.length) && t.all isAsciiAlpha

/-- Matcher for `\.[a-zA-Z]{2,}$`. -/
def dotTld : List Char → Bool
  | [] => false
  | c :: t => c == '.' && tldOk t

/-- Matcher for the body of the domain regex: a nonempty run of characters
from `[a-zA-Z0-9.-]`, then a literal dot, then the TLD. -/
def domainCore : List Char → Bool
  | [] => false
  | c :: rest => isDomainChar c && (dotTld rest || domainCore rest)

/-- Python's `$` anchor: the pattern body may stop at the end of the string
or just before a single final newline. -/
def matchDollar (core : List Char → Bool) (l : List Char) : Bool :=
  core l || (l.getLast? == some '\n' && core l.dropLast)

/-- `Geolocator.validate_input` from `doxxer.py`: the input matches the
IPv4 regex or the domain regex. -/
def validate_input (ip : String) : Bool :=
  matchDollar ipCore ip.data || matchDollar domainCore ip.data

/-! ### Declarative languages of the two regexes (from the spec's words) -/

/-- What `\d{1,3}` accepts, declaratively. -/
def OctetShape (o : List Char) : Prop :=
  o ≠ [] ∧ o.length ≤ 3 ∧ ∀ c ∈ o, isAsciiDigit c = true

/-- The dotted-quad language: four octets separated by literal dots. -/
def IpShape (l : List Char) : Prop :=
  ∃ o1 o2 o3 o4, OctetShape o1 ∧ OctetShape o2 ∧ OctetShape o3 ∧ OctetShape o4 ∧
    l = o1 ++ '.' :: (o2 ++ '.' :: (o3 ++ '.' :: o4))

/-- The domain language: a nonempty segment of letters, digits, dots and
hyphens, then a dot, then a TLD of at least two letters. -/
def DomainShape (l : List Char) : Prop :=
  ∃ u t, u ≠ [] ∧ (∀ c ∈ u, isDomainChar c = true) ∧
    2 ≤ t.length ∧ (∀ c ∈ t, isAsciiAlpha c = true) ∧ l = u ++ '.' :: t

/-- A Python pattern anchored with `$` accepts the body language with an
optional single trailing newline. -/
def PyMatch (Shape : List Char → Prop) (l : List Char) : Prop :=
  Shape l ∨ ∃ l', l = l' ++ ['\n'] ∧ Shape l'

/-! ### Matcher / language equivalences -/

theorem octetSplit_spec (l : List Char) :
    (octetSplit l).1 ++ (octetSplit l).2 = l ∧
    (∀ c ∈ (octetSplit l).1, isAsciiDigit c = true) ∧
    (∀ c, (octetSplit l).2.head? = some c → isAsciiDigit c = false) := by
  induction l with
  | nil => simp [octetSplit]
  | cons c l ih =>
    by_cases h : isAsciiDigit c = true
    · simpa [octetSplit, List.takeWhile_cons, List.dropWhile_cons, h] using ih
    · simp only [Bool.not_eq_true] at h
      simp [octetSplit, List.takeWhile_cons, List.dropWhile_cons, h]

theorem octetSplit_exact {o r : List Char} (ho : ∀ c ∈ o, isAsciiDigit c = true)
    (hr : ∀ c, r.head? = some c → isAsciiDigit c = false) :
    octetSplit (o ++ r) = (o, r) := by
  induction o with
  | nil =>
    cases r with
    | nil => simp [octetSplit]
    | cons c r' =>
      have := hr c (by simp)
      simp [octetSplit, List.takeWhile_cons, List.dropWhile_cons, this]
  | cons c o' ih =>
    have hc : isAsciiDigit c = true := ho c (by simp)
    have ih' := ih (fun d hd => ho d (by simp [hd]))
    simp only [octetSplit, Prod.mk.injEq] at ih'
    simp [octetSplit, List.takeWhile_cons, List.dropWhile_cons, hc, ih'.1, ih'.2]

theorem octetOk_of_shape {o : List Char} (h : OctetShape o) : octetOk o = true := by
  obtain ⟨h1, h2, _⟩ := h
  cases o with
  | nil => exact absurd rfl h1
  | cons c o' =>
    simp only [List.length_cons] at h2
    simp only [octetOk, List.isEmpty_cons, Bool.not_false, Bool.true_and, decide_eq_true_eq,
      List.length_cons]
    omega

theorem shape_of_octetOk {o : List Char} (h : octetOk o = true)
    (hd : ∀ c ∈ o, isAsciiDigit c = true) : OctetShape o := by
  cases o with
  | nil => simp [octetOk] at h
  | cons c o' =>
    simp only [octetOk, Bool.and_eq_true, decide_eq_true_eq] at h
    exact ⟨by simp, h.2, hd⟩

theorem head_dot_cons (r : List Char) :
    ∀ c, (('.' :: r) : List Char).head? = some c → isAsciiDigit c = false := by
  intro c hc
  simp only [List.head?_cons, Option.some.injEq] at hc
  subst hc
  decide

theorem ipGroups_succ_elim {k : Nat} {l : List Char} (h : ipGroups (k + 1) l = true) :
    ∃ o r, l = '.' :: (o ++ r) ∧ OctetShape o ∧ ipGroups k r = true := by
  cases l with
  | nil => simp [ipGroups] at h
  | cons c l' =>
    simp only [ipGroups, Bool.and_eq_true, beq_iff_eq] at h
    obtain ⟨rfl, h1, h2⟩ := h
    have hs := octetSplit_spec l'
    exact ⟨(octetSplit l').1, (octetSplit l').2, by rw [hs.1], shape_of_octetOk h1 hs.2.1, h2⟩

theorem ipGroups_succ_intro {k : Nat} {o r : List Char} (ho : OctetShape o)
    (hhead : ∀ c, r.head? = some c → isAsciiDigit c = false)
    (h : ipGroups k r = true) : ipGroups (k + 1) ('.' :: (o ++ r)) = true := by
  simp [ipGroups, octetSplit_exact ho.2.2 hhead, octetOk_of_shape ho, h]

theorem ipCore_iff (l : List Char) : ipCore l = true ↔ IpShape l := by
  constructor
  · intro h
    have hs := octetSplit_spec l
    simp only [ipCore, Bool.and_eq_true] at h
    obtain ⟨o2, r2, hr1, ho2, h2⟩ := ipGroups_succ_elim h.2
    obtain ⟨o3, r3, hr2, ho3, h3⟩ := ipGroups_succ_elim h2
    obtain ⟨o4, r4, hr3, ho4, h4⟩ := ipGroups_succ_elim h3
    have hr4 : r4 = [] := by simpa [ipGroups] using h4
    refine ⟨(octetSplit l).1, o2, o3, o4, shape_of_octetOk h.1 hs.2.1, ho2, ho3, ho4, ?_⟩
    conv_lhs => rw [← hs.1]
    rw [hr1, hr2, hr3, hr4]
    simp
  · rintro ⟨o1, o2, o3, o4, h1, h2, h3, h4, rfl⟩
    have g1 : ipGroups 1 ('.' :: (o4 ++ [])) = true :=
      ipGroups_succ_intro h4 (by intro c hc; simp at hc) (by simp [ipGroups])
    rw [List.append_nil] at g1
    have g2 : ipGroups 2 ('.' :: (o3 ++ '.' :: o4)) = true :=
      ipGroups_succ_intro h3 (head_dot_cons o4) g1
    have g3 : ipGroups 3 ('.' :: (o2 ++ '.' :: (o3 ++ '.' :: o4))) = true :=
      ipGroups_succ_intro h2 (head_dot_cons (o3 ++ '.' :: o4)) g2
    have hsplit := octetSplit_exact h1.2.2 (head_dot_cons (o2 ++ '.' :: (o3 ++ '.' :: o4)))
    simp only [ipCore, hsplit, Bool.and_eq_true]
    exact ⟨octetOk_of_shape h1, g3⟩

theorem domainCore_iff (l : List Char) : domainCore l = true ↔ DomainShape l := by
  induction l with
  | nil =>
    simp only [domainCore, Bool.false_eq_true, false_iff]
    rintro ⟨u, t, hu, _, _, _, hl⟩
    cases u with
    | nil => exact hu rfl
    | cons c u' => simp at hl
  | cons c rest ih =>
    simp only [domainCore, Bool.and_eq_true, Bool.or_eq_true]
    constructor
    · rintro ⟨hc, hdot | hrec⟩
      · cases rest with
        | nil => simp [dotTld] at hdot
        | cons e t =>
          simp only [dotTld, Bool.and_eq_true, beq_iff_eq] at hdot
          obtain ⟨rfl, ht⟩ := hdot
          simp only [tldOk, Bool.and_eq_true, decide_eq_true_eq, List.all_eq_true] at ht
          exact ⟨[c], t, by simp, by simpa using hc, ht.1, ht.2, by simp⟩
      · obtain ⟨u, t, hu, huc, hlt, hta, hrest⟩ := ih.mp hrec
        refine ⟨c :: u, t, by simp, ?_, hlt, hta, by simp [hrest]⟩
        intro d hd
        rcases List.mem_cons.mp hd with rfl | h
        · exact hc
        · exact huc d h
    · rintro ⟨u, t, hu, huc, hlt, hta, hl⟩
      cases u with
      | nil => exact absurd rfl hu
      | cons d u' =>
        simp only [List.cons_append, List.cons.injEq] at hl
        obtain ⟨rfl, hrest⟩ := hl
        refine ⟨huc c (by simp), ?_⟩
        cases u' with
        | nil =>
          left
          simp only [List.nil_append] at hrest
          subst hrest
          simp only [dotTld, beq_self_eq_true, Bool.true_and, tldOk, Bool.and_eq_true,
            decide_eq_true_eq, List.all_eq_true]
          exact ⟨hlt, hta⟩
        | cons e u'' =>
          right
          refine ih.mpr ⟨e :: u'', t, by simp, ?_, hlt, hta, hrest⟩
          intro x hx
          exact huc x (List.mem_cons_of_mem c hx)

theorem matchDollar_iff (core : List Char → Bool) (Shape : List Char → Prop)
    (hcore : ∀ l, core l = true ↔ Shape l) (l : List Char) :
    matchDollar core l = true ↔ PyMatch Shape l := by
  simp only [matchDollar, Bool.or_eq_true, Bool.and_eq_true, beq_iff_eq, PyMatch, hcore]
  constructor
  · rintro (h | ⟨hlast, hbody⟩)
    · exact Or.inl h
    · right
      refine ⟨l.dropLast, ?_, hbody⟩
      conv_lhs => rw [← List.dropLast_append_getLast? '\n' hlast]
  · rintro (h | ⟨l', rfl, hbody⟩)
    · exact Or.inl h
    · right
      constructor
      · rw [List.getLast?_concat]
      · simpa [List.dropLast_concat] using hbody

/-- C4: `validate_input s` is true iff `s` matches the dotted-quad IPv4
pattern or the domain pattern (each with Python's `$` semantics); in
particular `"8.8.8.8"` and `"example.com"` validate and `"not an ip"` does
not.  The check is purely syntactic: no DNS resolution and no IPv6 form is
involved. -/
theorem validate_input_spec :
    (∀ s : String, validate_input s = true ↔
      (PyMatch IpShape s.data ∨ PyMatch DomainShape s.data)) ∧
    validate_input "8.8.8.8" = true ∧
    validate_input "example.com" = true ∧
    validate_input "not an ip" = false := by
  refine ⟨fun s => ?_, by decide, by decide, by decide⟩
  simp only [validate_input, Bool.or_eq_true,
    matchDollar_iff ipCore IpShape ipCore_iff,
    matchDollar_iff domainCore DomainShape domainCore_iff]

/-! ### JSON values and records

A GeoRecord is a decoded JSON object with string keys and scalar values.
Numbers keep Python's int/float distinction: `jint` is an `int`, and
`jdec m d` is a float written in decimal as `m / 10 ^ d` (the embedding of
floats by the exact decimal numeral `repr` prints). -/

inductive JVal where
  | jstr (s : String)
  | jint (n : Int)
  | jdec (m : Int) (d : Nat)
  | jbool (b : Bool)
  | jnull
deriving DecidableEq

/-- A decoded JSON object: key/value pairs in insertion order. -/
abbrev Record := List (String × JVal)

/-- Python `dict` lookup (first match; real dicts have no duplicate keys). -/
def lookupField (r : Record) (k : String) : Option JVal :=
  match r with
  | [] => none
  | kv :: r' => if kv.1 = k then some kv.2 else lookupField r' k

/-- Does the record carry the given key? -/
def hasField (r : Record) (k : String) : Bool := (lookupField r k).isSome

/-! ### The Geolocator and its network oracle -/

/-- Outcome of `requests.get(url, params, timeout=10)` together with the
subsequent `response.raise_for_status()` / `response.json()` calls:
either a raised `requests.exceptions.RequestException` carrying its
message, or a response with its status code, the message of the
`HTTPError` that `raise_for_status` raises on 4xx/5xx, and the decoded
JSON body. -/
inductive HttpResult where
  | exn (msg : String)
  | resp (status : Nat) (statusMsg : String) (body : Record)
deriving DecidableEq

/-- The `Geolocator` object state set up by `__init__` (the `output`
directory creation is a file-system side effect with no influence on any
computed value and is not modelled). -/
structure Geolocator where
  api_key : Option String := none

/-- `self.base_url`: the premium endpoint when a (truthy) API key was
given, the free endpoint otherwise. -/
def Geolocator.base_url (g : Geolocator) : String :=
  match g.api_key with
  | some k => if k = "" then "http://ip-api.com/json" else "http://pro.ip-api.com/json"
  | none => "http://ip-api.com/json"

/-- `params = {"key": self.api_key} if self.api_key else {}` (an empty
string is falsy in Python). -/
def keyParam (g : Geolocator) : Option String :=
  match g.api_key with
  | some k => if k = "" then none else some k
  | none => none

/-- The failure GeoRecord built by the `except` branch of
`get_ip_geolocation`. -/
def failRecord (ip msg : String) : Record :=
  [("status", .jstr "fail"), ("query", .jstr ip), ("message", .jstr msg)]

/-- `Geolocator.get_ip_geolocation`: one rate-limited HTTP GET.  A raised
request exception is caught and converted to a failure GeoRecord; a 4xx or
5xx status makes `raise_for_status` raise, which the same handler catches;
otherwise the decoded body is returned unchanged.  (The `ratelimit`
decorators only delay the call; they do not change its value.) -/
def Geolocator.get_ip_geolocation (g : Geolocator)
    (http : String → Option String → HttpResult) (ip : String) : Record :=
  match http (g.base_url ++ "/" ++ ip) (keyParam g) with
  | .exn msg => failRecord ip msg
  | .resp status statusMsg body =>
      if 400 ≤ status ∧ status < 600 then failRecord ip statusMsg else body

/-- `Geolocator.bulk_lookup`: submit one future per input that passes
`validate_input` after `strip()`, then collect `future.result()` by
iterating the futures list.  A future stands for the record its lookup
resolves to (lookups are deterministic functions of the oracle), and
`max_workers` bounds the thread pool without influencing any value. -/
def Geolocator.bulk_lookup (g : Geolocator)
    (http : String → Option String → HttpResult) (ips : List String)
    (max_workers : Nat := 5) : List Record :=
  let _ := max_workers
  let futures := (ips.filter fun ip => validate_input (pyStrip ip)).map
    (fun ip => g.get_ip_geolocation http (pyStrip ip))
  futures.foldl (fun results future => results ++ [future]) []

/-! ### Structure of `bulk_lookup` -/

theorem foldl_push {α : Type} (l acc : List α) :
    l.foldl (fun r x => r ++ [x]) acc = acc ++ l := by
  induction l generalizing acc with
  | nil => simp
  | cons a l ih => simp [List.foldl_cons, ih]

theorem bulk_lookup_eq_map (g : Geolocator) (http : String → Option String → HttpResult)
    (ips : List String) (mw : Nat) :
    g.bulk_lookup http ips mw =
      (ips.filter fun ip => validate_input (pyStrip ip)).map
        (fun ip => g.get_ip_geolocation http (pyStrip ip)) := by
  simp [Geolocator.bulk_lookup, foldl_push]

theorem filter_map_filterMap {α β : Type} (p : α → Bool) (f : α → β) (l : List α) :
    (l.filter p).map f = l.filterMap (fun a => if p a then some (f a) else none) := by
  induction l with
  | nil => rfl
  | cons a l ih => by_cases h : p a <;> simp [List.filter_cons, List.filterMap_cons, h, ih]

/-- Every record `get_ip_geolocation` can return carries a `status` key,
provided every 2xx/3xx body from the oracle does. -/
theorem get_ip_geolocation_status
    (g : Geolocator) (http : String → Option String → HttpResult) (ip : String)
    (hok : ∀ url key st sm body, http url key = .resp st sm body →
      (400 ≤ st ∧ st < 600) ∨ hasField body "status" = true) :
    hasField (g.get_ip_geolocation http ip) "status" = true := by
  unfold Geolocator.get_ip_geolocation
  cases hresp : http (g.base_url ++ "/" ++ ip) (keyParam g) with
  | exn msg => simp [hresp, failRecord, hasField, lookupField]
  | resp st sm body =>
    by_cases hst : 400 ≤ st ∧ st < 600
    · simp [hresp, hst, failRecord, hasField, lookupField]
    · rcases hok _ _ _ _ _ hresp with h | h
      · exact absurd h hst
      · simpa [hresp, hst] using h

/-- C1: for every list of identifiers, `bulk_lookup` returns exactly one
GeoRecord per identifier that passes validation (after `strip()`), however
many individual lookups fail; and, whenever every successful response body
from the endpoint carries a `status` key, every returned record is tagged
by a `status` key (`"fail"` for converted errors, the API tag otherwise).
No dispatched request is dropped. -/
theorem bulk_lookup_one_record_per_validated_input
    (g : Geolocator) (http : String → Option String → HttpResult)
    (ips : List String) (mw : Nat) :
    (g.bulk_lookup http ips mw).length
      = (ips.filter fun ip => validate_input (pyStrip ip)).length ∧
    ((∀ url key st sm body, http url key = .resp st sm body →
        (400 ≤ st ∧ st < 600) ∨ hasField body "status" = true) →
      ∀ r ∈ g.bulk_lookup http ips mw, hasField r "status" = true) := by
  constructor
  · rw [bulk_lookup_eq_map]
    exact List.length_map _ _
  · intro hok r hr
    rw [bulk_lookup_eq_map] at hr
    obtain ⟨ip, _, rfl⟩ := List.mem_map.mp hr
    exact get_ip_geolocation_status g http (pyStrip ip) hok

/-- A demonstration oracle: one success, one network error, everything
else a 404. -/
def httpDemo : String → Option String → HttpResult := fun url _ =>
  if url = "http://ip-api.com/json/8.8.8.8" then
    .resp 200 "" [("status", .jstr "success"), ("query", .jstr "8.8.8.8"),
      ("country", .jstr "United States")]
  else if url = "http://ip-api.com/json/1.1.1.1" then
    .exn "HTTPSConnectionPool: Read timed out."
  else
    .resp 404 "404 Client Error: Not Found" []

theorem httpDemo_status_ok : ∀ url key st sm body, httpDemo url key = .resp st sm body →
    (400 ≤ st ∧ st < 600) ∨ hasField body "status" = true := by
  intro url key st sm body h
  unfold httpDemo at h
  split at h
  · simp only [HttpResult.resp.injEq] at h
    obtain ⟨rfl, rfl, rfl⟩ := h
    right
    decide
  · split at h
    · simp at h
    · simp only [HttpResult.resp.injEq] at h
      obtain ⟨rfl, rfl, rfl⟩ := h
      left
      omega

theorem bulk_lookup_one_record_per_validated_input_witness :
    (({ api_key := none } : Geolocator).bulk_lookup httpDemo
        ["8.8.8.8", "bad input", "1.1.1.1"] 5).length
      = ((["8.8.8.8", "bad input", "1.1.1.1"] : List String).filter
          fun ip => validate_input (pyStrip ip)).length ∧
    ∀ r ∈ ({ api_key := none } : Geolocator).bulk_lookup httpDemo
        ["8.8.8.8", "bad input", "1.1.1.1"] 5, hasField r "status" = true :=
  ⟨(bulk_lookup_one_record_per_validated_input _ _ _ _).1,
   (bulk_lookup_one_record_per_validated_input _ _ _ _).2 httpDemo_status_ok⟩

/-- C3: a raised network error becomes a failure GeoRecord with status
`"fail"`, the queried identifier and the exception message; a 4xx/5xx
status (the `HTTPError` raised by `raise_for_status`) is handled the same
way; and inside a batch each entry of the result is the independent lookup
of its own identifier, so a per-request error never disturbs the sibling
entries. -/
theorem get_ip_geolocation_error_handling
    (g : Geolocator) (http : String → Option String → HttpResult) (ip : String) :
    (∀ msg, http (g.base_url ++ "/" ++ ip) (keyParam g) = .exn msg →
      g.get_ip_geolocation http ip = failRecord ip msg) ∧
    (∀ st sm body, http (g.base_url ++ "/" ++ ip) (keyParam g) = .resp st sm body →
      400 ≤ st → st < 600 → g.get_ip_geolocation http ip = failRecord ip sm) ∧
    (∀ ips mw, g.bulk_lookup http ips mw =
      (ips.filter fun s => validate_input (pyStrip s)).map
        (fun s => g.get_ip_geolocation http (pyStrip s))) := by
  refine ⟨?_, ?_, fun ips mw => bulk_lookup_eq_map g http ips mw⟩
  · intro msg h
    unfold Geolocator.get_ip_geolocation
    rw [h]
  · intro st sm body h h4 h6
    unfold Geolocator.get_ip_geolocation
    rw [h]
    simp [h4, h6]

theorem get_ip_geolocation_error_handling_witness :
    (httpDemo "http://ip-api.com/json/1.1.1.1" none
        = .exn "HTTPSConnectionPool: Read timed out." ∧
      ({ api_key := none } : Geolocator).get_ip_geolocation httpDemo "1.1.1.1"
        = failRecord "1.1.1.1" "HTTPSConnectionPool: Read timed out.") ∧
    (httpDemo "http://ip-api.com/json/9.9.9.9" none
        = .resp 404 "404 Client Error: Not Found" [] ∧
      ({ api_key := none } : Geolocator).get_ip_geolocation httpDemo "9.9.9.9"
        = failRecord "9.9.9.9" "404 Client Error: Not Found") :=
  ⟨⟨by decide,
    (get_ip_geolocation_error_handling { api_key := none } httpDemo "1.1.1.1").1
      "HTTPSConnectionPool: Read timed out." (by decide)⟩,
   ⟨by decide,
    (get_ip_geolocation_error_handling { api_key := none } httpDemo "9.9.9.9").2.1
      404 "404 Client Error: Not Found" [] (by decide) (by decide) (by decide)⟩⟩

/-- An oracle whose two answers are distinguishable records. -/
def httpOrder : String → Option String → HttpResult := fun url _ =>
  if url = "http://ip-api.com/json/8.8.8.8" then .resp 200 "" [("query", .jstr "8.8.8.8")]
  else .resp 200 "" [("query", .jstr "1.1.1.1")]

/-- C5 counterexample: `bulk_lookup` collects `future.result()` by
iterating the futures list in submission order, so for this concrete batch
of two distinguishable lookups the returned list is exactly the input
order of the validated identifiers — contradicting the claim that the
result follows completion order rather than input order. -/
theorem bulk_lookup_order_counterexample :
    ({ api_key := none } : Geolocator).bulk_lookup httpOrder ["8.8.8.8", "1.1.1.1"] 5
        = [[("query", JVal.jstr "8.8.8.8")], [("query", JVal.jstr "1.1.1.1")]] ∧
    ([("query", JVal.jstr "8.8.8.8")] : Record) ≠ [("query", JVal.jstr "1.1.1.1")] := by
  decide

/-- C5 amended: the list returned by `bulk_lookup` follows the submission
(input) order of the validated identifiers — entry `i` is the lookup of
the `i`-th identifier that passed validation — independent of the order in
which the concurrent lookups complete, because the collection loop waits
on each future in submission order. -/
theorem bulk_lookup_follows_input_order
    (g : Geolocator) (http : String → Option String → HttpResult)
    (ips : List String) (mw : Nat) :
    g.bulk_lookup http ips mw =
      (ips.filter fun ip => validate_input (pyStrip ip)).map
        (fun ip => g.get_ip_geolocation http (pyStrip ip)) :=
  bulk_lookup_eq_map g http ips mw

/-- C10: `bulk_lookup` strips every identifier before both validation and
dispatch: an input contributes a record iff its stripped form validates,
and the lookup is issued on the stripped form; in particular
`" 8.8.8.8 "` strips to `"8.8.8.8"`, which validates. -/
theorem bulk_lookup_strips_inputs
    (g : Geolocator) (http : String → Option String → HttpResult)
    (ips : List String) (mw : Nat) :
    g.bulk_lookup http ips mw
      = ips.filterMap (fun s =>
          if validate_input (pyStrip s) then some (g.get_ip_geolocation http (pyStrip s))
          else none) ∧
    pyStrip " 8.8.8.8 " = "8.8.8.8" ∧ validate_input (pyStrip " 8.8.8.8 ") = true := by
  refine ⟨?_, by decide, by decide⟩
  rw [bulk_lookup_eq_map, filter_map_filterMap]

/-! ### `json.dump(data, f, indent=4)`

The exact text Python writes for a record or a list of records of scalar
values.  Floats are embedded as exact decimal numerals (`jdec m d` prints
as `m / 10 ^ d` with `d` fractional digits), ints as plain numerals, and
strings with `ensure_ascii=True` escaping. -/

def lbrace : Char := '\x7b'
def rbrace : Char := '\x7d'

/-- Decimal digit character for `k < 10`. -/
def digitChar (k : Nat) : Char := Char.ofNat (48 + k)

/-- Decimal numeral of a natural number, most significant digit first. -/
def natDigits (n : Nat) : List Char :=
  if _h : n < 10 then [digitChar n]
  else natDigits (n / 10) ++ [digitChar (n % 10)]
termination_by n
decreasing_by exact Nat.div_lt_self (by omega) (by omega)

/-- Numeral of an integer, as Python `repr` prints one. -/
def intDigits (n : Int) : List Char :=
  if n < 0 then '-' :: natDigits n.natAbs else natDigits n.natAbs

/-- Numeral of the float `m / 10 ^ d`: optional sign, integer part, dot,
exactly `d` fractional digits (zero padded). -/
def decDigits (m : Int) (d : Nat) : List Char :=
  (if m < 0 then ['-'] else []) ++ natDigits (m.natAbs / 10 ^ d) ++
    '.' :: (List.replicate (d - (natDigits (m.natAbs % 10 ^ d)).length) '0' ++
      natDigits (m.natAbs % 10 ^ d))

/-- Lower-case hexadecimal digit character for `k < 16`. -/
def hexDigitChar (k : Nat) : Char :=
  if k < 10 then Char.ofNat (48 + k) else Char.ofNat (97 + (k - 10))

/-- Four lower-case hex digits, as `\uXXXX` escapes use. -/
def hex4 (n : Nat) : List Char :=
  [hexDigitChar (n / 4096 % 16), hexDigitChar (n / 256 % 16),
   hexDigitChar (n / 16 % 16), hexDigitChar (n % 16)]

/-- `json.dump` escaping of one character under `ensure_ascii=True` (the
default): quote, backslash and the five short escapes; every other
character outside printable ASCII as `\uXXXX`, split into a surrogate
pair above U+FFFF. -/
def escChar (c : Char) : List Char :=
  if c = '"' then ['\\', '"']
  else if c = '\\' then ['\\', '\\']
  else if c = '\n' then ['\\', 'n']
  else if c = '\t' then ['\\', 't']
  else if c = '\r' then ['\\', 'r']
  else if c.toNat = 8 then ['\\', 'b']
  else if c.toNat = 12 then ['\\', 'f']
  else if 32 ≤ c.toNat ∧ c.toNat ≤ 126 then [c]
  else if c.toNat < 65536 then '\\' :: 'u' :: hex4 c.toNat
  else ('\\' :: 'u' :: hex4 (55296 + (c.toNat - 65536) / 1024)) ++
       ('\\' :: 'u' :: hex4 (56320 + (c.toNat - 65536) % 1024))

/-- Escaped body of a JSON string literal. -/
def escString (s : String) : List Char := s.data.flatMap escChar

/-- A JSON string literal: quote, escaped body, quote. -/
def quoteStr (s : String) : List Char := '"' :: (escString s ++ ['"'])

/-- One scalar JSON value as `json.dump` prints it. -/
def renderScalar : JVal → List Char
  | .jstr s => quoteStr s
  | .jint n => intDigits n
  | .jdec m d => decDigits m d
  | .jbool true => ['t', 'r', 'u', 'e']
  | .jbool false => ['f', 'a', 'l', 's', 'e']
  | .jnull => ['n', 'u', 'l', 'l']

/-- `indent=4` padding at nesting level `k`. -/
def ind (k : Nat) : List Char := List.replicate (4 * k) ' '

/-- One `"key": value` member. -/
def renderPair (kv : String × JVal) : List Char :=
  quoteStr kv.1 ++ ':' :: ' ' :: renderScalar kv.2

/-- After the first member of an object: `,\n<indent>` before each further
member and `\n<indent>` before the closing brace, as `indent=4` prints. -/
def renderMembersTail (lvl : Nat) : Record → List Char
  | [] => '\n' :: (ind lvl ++ [rbrace])
  | kv :: ms => ',' :: '\n' :: (ind (lvl + 1) ++ renderPair kv ++ renderMembersTail lvl ms)

/-- A record as a JSON object at nesting level `lvl`. -/
def renderRecord (lvl : Nat) : Record → List Char
  | [] => [lbrace, rbrace]
  | kv :: ms => lbrace :: '\n' :: (ind (lvl + 1) ++ renderPair kv ++ renderMembersTail lvl ms)

/-- After the first element of the top-level array. -/
def renderItemsTail : List Record → List Char
  | [] => ['\n', ']']
  | r :: rs => ',' :: '\n' :: (ind 1 ++ renderRecord 1 r ++ renderItemsTail rs)

/-- A list of records as a JSON array. -/
def renderArray : List Record → List Char
  | [] => ['[', ']']
  | r :: rs => '[' :: '\n' :: (ind 1 ++ renderRecord 1 r ++ renderItemsTail rs)

/-- The `Union[Dict, List[Dict]]` argument `save_results` accepts. -/
inductive PyData where
  | one (r : Record)
  | many (rs : List Record)
deriving DecidableEq

/-- The exact text `json.dump(data, f, indent=4)` writes. -/
def jsonDump : PyData → String
  | .one r => String.mk (renderRecord 0 r)
  | .many rs => String.mk (renderArray rs)

/-! ### A verified reader for the JSON texts `save_results` writes

Models `json.loads`: whitespace-insensitive, decodes string escapes
(recombining surrogate pairs as CPython's scanner does), and rejects
trailing garbage. -/

def isJsonWs (c : Char) : Bool := c == ' ' || c == '\t' || c == '\n' || c == '\r'

/-- Skip insignificant whitespace. -/
def wsSkip : List Char → List Char
  | [] => []
  | c :: cs => if isJsonWs c then wsSkip cs else c :: cs

/-- Value of one hexadecimal digit. -/
def hexDigVal (c : Char) : Option Nat :=
  if 48 ≤ c.toNat ∧ c.toNat ≤ 57 then some (c.toNat - 48)
  else if 97 ≤ c.toNat ∧ c.toNat ≤ 102 then some (10 + (c.toNat - 97))
  else if 65 ≤ c.toNat ∧ c.toNat ≤ 70 then some (10 + (c.toNat - 65))
  else none

/-- Value of a four-digit hex escape. -/
def hexQuad (a b c d : Char) : Option Nat :=
  match hexDigVal a, hexDigVal b, hexDigVal c, hexDigVal d with
  | some va, some vb, some vc, some vd => some (va * 4096 + vb * 256 + vc * 16 + vd)
  | _, _, _, _ => none

/-- Single-character escapes accepted after a backslash. -/
def unescChar (c : Char) : Option Char :=
  if c = '"' then some '"'
  else if c = '\\' then some '\\'
  else if c = '/' then some '/'
  else if c = 'n' then some '\n'
  else if c = 't' then some '\t'
  else if c = 'r' then some '\r'
  else if c = 'b' then some (Char.ofNat 8)
  else if c = 'f' then some (Char.ofNat 12)
  else none

/-- Decode one escape sequence after a backslash: the denoted character
and the remaining input.  A high `\uXXXX` surrogate must be followed by a
low one; the pair is recombined into one character, as CPython's scanner
does. -/
def decodeEsc : List Char → Option (Char × List Char)
  | [] => none
  | e :: rest =>
    if e = 'u' then
      match rest with
      | a :: b :: c2 :: d :: rest2 =>
        match hexQuad a b c2 d with
        | none => none
        | some n =>
          if n < 55296 ∨ 57344 ≤ n then some (Char.ofNat n, rest2)
          else if n < 56320 then
            match rest2 with
            | e2 :: u2 :: a2 :: b2 :: c3 :: d2 :: rest3 =>
              if e2 = '\\' ∧ u2 = 'u' then
                match hexQuad a2 b2 c3 d2 with
                | none => none
                | some n2 =>
                  if 56320 ≤ n2 ∧ n2 < 57344 then
                    some (Char.ofNat (65536 + (n - 55296) * 1024 + (n2 - 56320)), rest3)
                  else none
              else none
            | _ => none
          else none
      | _ => none
    else
      match unescChar e with
      | none => none
      | some ch => some (ch, rest)

theorem decodeEsc_length (l : List Char) (ch : Char) (r : List Char)
    (h : decodeEsc l = some (ch, r)) : r.length < l.length := by
  cases l with
  | nil => simp [decodeEsc] at h
  | cons e rest =>
    simp only [decodeEsc] at h
    repeat' split at h
    all_goals try exact Option.noConfusion h
    all_goals
      simp only [Option.some.injEq, Prod.mk.injEq] at h
      obtain ⟨h1, h2⟩ := h
      subst h2
      simp only [List.length_cons]
      omega

/-- Scan a JSON string body after the opening quote, decoding escapes. -/
def scanString (acc : List Char) : List Char → Option (String × List Char)
  | [] => none
  | c :: rest =>
    if c = '"' then some (String.mk acc.reverse, rest)
    else if c = '\\' then
      match hdec : decodeEsc rest with
      | none => none
      | some (ch, rest') =>
        have : rest'.length < rest.length := decodeEsc_length rest ch rest' hdec
        scanString (ch :: acc) rest'
    else scanString (c :: acc) rest
termination_by l => l.length
decreasing_by
  · simpa using Nat.lt_succ_of_lt this
  · simp

/-- Numeric value of a digit run. -/
def digitsVal (ds : List Char) : Nat :=
  ds.foldl (fun a c => a * 10 + (c.toNat - 48)) 0

/-- Apply an optional leading minus sign. -/
def intSign (neg : Bool) (n : Nat) : Int :=
  if neg then -(n : Int) else (n : Int)

/-- Scan the digits of a number after an optional sign: an integer part,
optionally a dot and a fractional part. -/
def scanNumAfterSign (neg : Bool) (cs1 : List Char) : Option (JVal × List Char) :=
  let ds := cs1.takeWhile isAsciiDigit
  let cs2 := cs1.dropWhile isAsciiDigit
  if ds.isEmpty then none
  else
    match cs2 with
    | c :: cs3 =>
      if c = '.' then
        let fs := cs3.takeWhile isAsciiDigit
        let cs4 := cs3.dropWhile isAsciiDigit
        if fs.isEmpty then none
        else some (.jdec (intSign neg (digitsVal (ds ++ fs))) fs.length, cs4)
      else some (.jint (intSign neg (digitsVal ds)), c :: cs3)
    | [] => some (.jint (intSign neg (digitsVal ds)), [])

/-- Scan a JSON number. -/
def scanNumber (cs : List Char) : Option (JVal × List Char) :=
  match cs with
  | [] => none
  | c :: cs' =>
    if c = '-' then scanNumAfterSign true cs' else scanNumAfterSign false (c :: cs')

/-- Consume an expected literal word, returning the rest of the input. -/
def dropWord : List Char → List Char → Option (List Char)
  | [], cs => some cs
  | _ :: _, [] => none
  | w :: ws, c :: cs => if c = w then dropWord ws cs else none

/-- Scan one scalar value: string, `true`, `false`, `null` or number. -/
def scanScalar (cs : List Char) : Option (JVal × List Char) :=
  match cs with
  | [] => none
  | c :: cs' =>
    if c = '"' then (scanString [] cs').map (fun p => (.jstr p.1, p.2))
    else if c = 't' then
      match dropWord ['r', 'u', 'e'] cs' with
      | some rest => some (.jbool true, rest)
      | none => none
    else if c = 'f' then
      match dropWord ['a', 'l', 's', 'e'] cs' with
      | some rest => some (.jbool false, rest)
      | none => none
    else if c = 'n' then
      match dropWord ['u', 'l', 'l'] cs' with
      | some rest => some (.jnull, rest)
      | none => none
    else scanNumber (c :: cs')

/-- Scan a `"key": value` member. -/
def scanPair (cs : List Char) : Option ((String × JVal) × List Char) :=
  match wsSkip cs with
  | [] => none
  | c :: cs' =>
    if c = '"' then
      match scanString [] cs' with
      | none => none
      | some (k, cs1) =>
        match wsSkip cs1 with
        | [] => none
        | c2 :: cs2 =>
          if c2 = ':' then
            match scanScalar (wsSkip cs2) with
            | none => none
            | some (v, cs3) => some ((k, v), cs3)
          else none
    else none

/-- After one member of an object: a comma and a further member, or the
closing brace.  The fuel only bounds the number of members read; one unit
is spent per step. -/
def scanMembersTail : Nat → List Char → Option (Record × List Char)
  | 0, _ => none
  | f + 1, cs0 =>
    match wsSkip cs0 with
    | [] => none
    | c :: cs' =>
      if c = rbrace then some ([], cs')
      else if c = ',' then
        match scanPair cs' with
        | none => none
        | some (kv, cs1) =>
          match scanMembersTail f cs1 with
          | none => none
          | some (ms, cs2) => some (kv :: ms, cs2)
      else none

/-- Scan a JSON object of scalars. -/
def scanRecord (fuel : Nat) (cs : List Char) : Option (Record × List Char) :=
  match wsSkip cs with
  | [] => none
  | c :: cs' =>
    if c = lbrace then
      match wsSkip cs' with
      | [] => none
      | c2 :: cs2 =>
        if c2 = rbrace then some ([], cs2)
        else
          match scanPair (c2 :: cs2) with
          | none => none
          | some (kv, cs1) =>
            match scanMembersTail fuel cs1 with
            | none => none
            | some (ms, cs3) => some (kv :: ms, cs3)
    else none

/-- After one element of the array: a comma and a further record, or the
closing bracket.  One unit of fuel is spent per element. -/
def scanItemsTail : Nat → List Char → Option (List Record × List Char)
  | 0, _ => none
  | f + 1, cs0 =>
    match wsSkip cs0 with
    | [] => none
    | c :: cs' =>
      if c = ']' then some ([], cs')
      else if c = ',' then
        match scanRecord f cs' with
        | none => none
        | some (r, cs1) =>
          match scanItemsTail f cs1 with
          | none => none
          | some (rs, cs2) => some (r :: rs, cs2)
      else none

/-- Scan a JSON array of objects. -/
def scanArray (fuel : Nat) (cs : List Char) : Option (List Record × List Char) :=
  match wsSkip cs with
  | [] => none
  | c :: cs' =>
    if c = '[' then
      match wsSkip cs' with
      | [] => none
      | c2 :: cs2 =>
        if c2 = ']' then some ([], cs2)
        else
          match scanRecord fuel (c2 :: cs2) with
          | none => none
          | some (r, cs1) =>
            match scanItemsTail fuel cs1 with
            | none => none
            | some (rs, cs3) => some (r :: rs, cs3)
    else none

/-- `json.loads` on the document shapes `save_results` writes: one object
or an array of objects, then nothing but trailing whitespace. -/
def jsonParse (s : String) : Option PyData :=
  let fuel := s.data.length
  match wsSkip s.data with
  | [] => none
  | c :: cs' =>
    if c = lbrace then
      match scanRecord fuel (c :: cs') with
      | some (r, rest) => if wsSkip rest = [] then some (.one r) else none
      | none => none
    else if c = '[' then
      match scanArray fuel (c :: cs') with
      | some (rs, rest) => if wsSkip rest = [] then some (.many rs) else none
      | none => none
    else none

/-! ### Infrastructure for the round-trip proof: digits, whitespace, hex -/

theorem digitChar_facts : ∀ k < 10, isAsciiDigit (digitChar k) = true ∧
    isJsonWs (digitChar k) = false ∧ digitChar k ≠ '.' ∧ digitChar k ≠ '"' ∧
    digitChar k ≠ '\\' ∧ digitChar k ≠ 't' ∧ digitChar k ≠ 'f' ∧ digitChar k ≠ 'n' ∧
    digitChar k ≠ '-' ∧ (digitChar k).toNat = 48 + k := by decide

theorem natDigits_mem (n : Nat) : ∀ c ∈ natDigits n, ∃ k, k < 10 ∧ c = digitChar k := by
  induction n using Nat.strong_induction_on with
  | _ n ih =>
    intro c hc
    rw [natDigits] at hc
    by_cases h : n < 10
    · simp only [h, dite_true, List.mem_singleton] at hc
      exact ⟨n, h, hc⟩
    · simp only [h, dite_false, List.mem_append, List.mem_singleton] at hc
      rcases hc with hc | hc
      · exact ih (n / 10) (Nat.div_lt_self (by omega) (by omega)) c hc
      · exact ⟨n % 10, Nat.mod_lt _ (by omega), hc⟩

theorem natDigits_ne_nil (n : Nat) : natDigits n ≠ [] := by
  rw [natDigits]
  by_cases h : n < 10 <;> simp [h]

theorem natDigits_digit (n : Nat) : ∀ c ∈ natDigits n, isAsciiDigit c = true := by
  intro c hc
  obtain ⟨k, hk, rfl⟩ := natDigits_mem n c hc
  exact (digitChar_facts k hk).1

theorem digitsVal_acc (b : List Char) : ∀ acc : Nat,
    b.foldl (fun a c => a * 10 + (c.toNat - 48)) acc
      = acc * 10 ^ b.length + digitsVal b := by
  induction b with
  | nil => intro acc; simp [digitsVal]
  | cons c b ih =>
    intro acc
    simp only [List.foldl_cons, List.length_cons, digitsVal]
    rw [ih (acc * 10 + (c.toNat - 48)), ih (0 * 10 + (c.toNat - 48))]
    ring

theorem digitsVal_append (a b : List Char) :
    digitsVal (a ++ b) = digitsVal a * 10 ^ b.length + digitsVal b := by
  simp only [digitsVal, List.foldl_append]
  exact digitsVal_acc b _

theorem digitsVal_natDigits (n : Nat) : digitsVal (natDigits n) = n := by
  induction n using Nat.strong_induction_on with
  | _ n ih =>
    rw [natDigits]
    by_cases h : n < 10
    · simp only [h, dite_true]
      simp [digitsVal, (digitChar_facts n h).2.2.2.2.2.2.2.2.2]
    · simp only [h, dite_false]
      rw [digitsVal_append, ih (n / 10) (Nat.div_lt_self (by omega) (by omega))]
      simp only [List.length_singleton, pow_one, digitsVal, List.foldl_cons, List.foldl_nil]
      rw [(digitChar_facts (n % 10) (Nat.mod_lt _ (by omega))).2.2.2.2.2.2.2.2.2]
      omega

theorem natDigits_length_le (k : Nat) : ∀ n, n < 10 ^ k → 1 ≤ k → (natDigits n).length ≤ k := by
  induction k with
  | zero => intro n hn hk; omega
  | succ k ihk =>
    intro n hn _
    rw [natDigits]
    by_cases h : n < 10
    · simp [h]
    · simp only [h, dite_false, List.length_append, List.length_singleton]
      have hk1 : 1 ≤ k := by
        by_contra hk0
        have : k = 0 := by omega
        subst this
        simp at hn
        omega
      have : n / 10 < 10 ^ k := by
        rw [pow_succ] at hn
        exact Nat.div_lt_of_lt_mul (by omega)
      have := ihk (n / 10) this hk1
      omega

theorem digitsVal_zeros (k : Nat) (l : List Char) :
    digitsVal (List.replicate k '0' ++ l) = digitsVal l := by
  induction k with
  | zero => simp
  | succ k ih =>
    rw [List.replicate_succ]
    simpa [digitsVal] using ih

theorem wsSkip_not_ws {c : Char} (h : isJsonWs c = false) (l : List Char) :
    wsSkip (c :: l) = c :: l := by
  simp [wsSkip, h]

theorem wsSkip_sp (n : Nat) (l : List Char) :
    wsSkip (List.replicate n ' ' ++ l) = wsSkip l := by
  induction n with
  | zero => simp
  | succ n ih =>
    rw [List.replicate_succ]
    simpa [wsSkip] using ih

theorem wsSkip_ind (k : Nat) (l : List Char) : wsSkip (ind k ++ l) = wsSkip l :=
  wsSkip_sp (4 * k) l

theorem wsSkip_nl (l : List Char) : wsSkip ('\n' :: l) = wsSkip l := by
  have h : isJsonWs '\n' = true := by decide
  simp [wsSkip, h]

theorem takeWhile_digits {ds rest : List Char} (hds : ∀ c ∈ ds, isAsciiDigit c = true)
    (hr : ∀ c, rest.head? = some c → isAsciiDigit c = false) :
    (ds ++ rest).takeWhile isAsciiDigit = ds ∧ (ds ++ rest).dropWhile isAsciiDigit = rest := by
  have h := octetSplit_exact hds hr
  simp only [octetSplit, Prod.mk.injEq] at h
  exact h

theorem hexDigVal_hexDigitChar : ∀ k < 16, hexDigVal (hexDigitChar k) = some k := by decide

theorem hexQuad_hex4 {n : Nat} (h : n < 65536) :
    hexQuad (hexDigitChar (n / 4096 % 16)) (hexDigitChar (n / 256 % 16))
      (hexDigitChar (n / 16 % 16)) (hexDigitChar (n % 16)) = some n := by
  have h1 := hexDigVal_hexDigitChar (n / 4096 % 16) (by omega)
  have h2 := hexDigVal_hexDigitChar (n / 256 % 16) (by omega)
  have h3 := hexDigVal_hexDigitChar (n / 16 % 16) (by omega)
  have h4 := hexDigVal_hexDigitChar (n % 16) (by omega)
  simp only [hexQuad, h1, h2, h3, h4, Option.some.injEq]
  omega

theorem char_toNat_lt (c : Char) : c.toNat < 1114112 := by
  have hv : c.toNat = c.val.toNat := rfl
  rcases c.valid with h | ⟨h1, h2⟩ <;> omega

theorem char_valid_range (c : Char) : c.toNat < 55296 ∨ 57344 ≤ c.toNat := by
  have hv : c.toNat = c.val.toNat := rfl
  rcases c.valid with h | ⟨h1, h2⟩ <;> omega

/-! ### String escapes invert -/

theorem scanString_close (acc rest : List Char) :
    scanString acc ('"' :: rest) = some (String.mk acc.reverse, rest) := by
  rw [scanString]
  rw [if_pos rfl]

theorem scanString_plain {c : Char} (h1 : c ≠ '"') (h2 : c ≠ '\\') (acc rest : List Char) :
    scanString acc (c :: rest) = scanString (c :: acc) rest := by
  rw [scanString]
  rw [if_neg h1, if_neg h2]

theorem scanString_esc {rest : List Char} {ch : Char} {rest' : List Char}
    (hd : decodeEsc rest = some (ch, rest')) (acc : List Char) :
    scanString acc ('\\' :: rest) = scanString (ch :: acc) rest' := by
  rw [scanString]
  rw [if_neg (by decide : ¬(('\\' : Char) = '"')), if_pos rfl]
  split
  · rename_i heq
    rw [hd] at heq
    exact absurd heq (by simp)
  · rename_i ch2 rest2 heq
    rw [hd] at heq
    simp only [Option.some.injEq, Prod.mk.injEq] at heq
    obtain ⟨rfl, rfl⟩ := heq
    rfl

theorem decodeEsc_short {e ch : Char} (he : e ≠ 'u') (hu : unescChar e = some ch)
    (rest : List Char) : decodeEsc (e :: rest) = some (ch, rest) := by
  simp [decodeEsc, hu, he]

theorem decodeEsc_u4 {a b c2 d : Char} {n : Nat} (hq : hexQuad a b c2 d = some n)
    (hval : n < 55296 ∨ 57344 ≤ n) (rest : List Char) :
    decodeEsc ('u' :: a :: b :: c2 :: d :: rest) = some (Char.ofNat n, rest) := by
  simp [decodeEsc, hq, hval]

theorem decodeEsc_upair {a b c2 d a2 b2 c3 d2 : Char} {n n2 : Nat}
    (hq : hexQuad a b c2 d = some n) (hq2 : hexQuad a2 b2 c3 d2 = some n2)
    (h1 : ¬(n < 55296 ∨ 57344 ≤ n)) (h2 : n < 56320) (h3 : 56320 ≤ n2 ∧ n2 < 57344)
    (rest : List Char) :
    decodeEsc ('u' :: a :: b :: c2 :: d :: '\\' :: 'u' :: a2 :: b2 :: c3 :: d2 :: rest)
      = some (Char.ofNat (65536 + (n - 55296) * 1024 + (n2 - 56320)), rest) := by
  simp [decodeEsc, hq, hq2, h1, h2, h3.1, h3.2]

theorem scanString_uescape {n : Nat} (hn : n < 65536) (hval : n < 55296 ∨ 57344 ≤ n)
    (acc tail : List Char) :
    scanString acc ('\\' :: 'u' :: (hex4 n ++ tail)) = scanString (Char.ofNat n :: acc) tail := by
  have hd : decodeEsc ('u' :: (hex4 n ++ tail)) = some (Char.ofNat n, tail) := by
    simp only [hex4, List.cons_append, List.nil_append]
    exact decodeEsc_u4 (hexQuad_hex4 hn) hval tail
  exact scanString_esc hd acc

theorem scanString_surrogate {n : Nat} (hge : 65536 ≤ n) (hlt : n < 1114112)
    (acc tail : List Char) :
    scanString acc ('\\' :: 'u' :: (hex4 (55296 + (n - 65536) / 1024) ++
        ('\\' :: 'u' :: (hex4 (56320 + (n - 65536) % 1024) ++ tail))))
      = scanString (Char.ofNat n :: acc) tail := by
  have hhi : 55296 + (n - 65536) / 1024 < 65536 := by omega
  have hlo : 56320 + (n - 65536) % 1024 < 65536 := by omega
  have hnothi : ¬(55296 + (n - 65536) / 1024 < 55296 ∨ 57344 ≤ 55296 + (n - 65536) / 1024) := by
    omega
  have hhi2 : 55296 + (n - 65536) / 1024 < 56320 := by omega
  have hlorange : 56320 ≤ 56320 + (n - 65536) % 1024 ∧ 56320 + (n - 65536) % 1024 < 57344 := by
    omega
  have hcomb : 65536 + (55296 + (n - 65536) / 1024 - 55296) * 1024 +
      (56320 + (n - 65536) % 1024 - 56320) = n := by omega
  have hd : decodeEsc ('u' :: (hex4 (55296 + (n - 65536) / 1024) ++
      ('\\' :: 'u' :: (hex4 (56320 + (n - 65536) % 1024) ++ tail))))
      = some (Char.ofNat n, tail) := by
    simp only [hex4, List.cons_append, List.nil_append]
    rw [decodeEsc_upair (hexQuad_hex4 hhi) (hexQuad_hex4 hlo) hnothi hhi2 hlorange tail, hcomb]
  exact scanString_esc hd acc

theorem scanString_short (e ch : Char) (he : e ≠ 'u') (hu : unescChar e = some ch)
    (acc rest : List Char) :
    scanString acc ('\\' :: e :: rest) = scanString (ch :: acc) rest :=
  scanString_esc (decodeEsc_short he hu rest) acc

theorem scanString_escape_step (c : Char) (acc tail : List Char) :
    scanString acc (escChar c ++ tail) = scanString (c :: acc) tail := by
  by_cases h1 : c = '"'
  · subst h1
    rw [escChar]
    simp only [ite_true, List.cons_append, List.nil_append, if_pos rfl]
    rw [scanString_short '"' '"' (by decide) (by decide)]
  by_cases h2 : c = '\\'
  · subst h2
    rw [escChar]
    rw [if_neg (by decide), if_pos rfl]
    simp only [List.cons_append, List.nil_append]
    rw [scanString_short '\\' '\\' (by decide) (by decide)]
  by_cases h3 : c = '\n'
  · subst h3
    rw [escChar]
    rw [if_neg (by decide), if_neg (by decide), if_pos rfl]
    simp only [List.cons_append, List.nil_append]
    rw [scanString_short 'n' '\n' (by decide) (by decide)]
  by_cases h4 : c = '\t'
  · subst h4
    rw [escChar]
    rw [if_neg (by decide), if_neg (by decide), if_neg (by decide), if_pos rfl]
    simp only [List.cons_append, List.nil_append]
    rw [scanString_short 't' '\t' (by decide) (by decide)]
  by_cases h5 : c = '\r'
  · subst h5
    rw [escChar]
    rw [if_neg (by decide), if_neg (by decide), if_neg (by decide), if_neg (by decide),
      if_pos rfl]
    simp only [List.cons_append, List.nil_append]
    rw [scanString_short 'r' '\r' (by decide) (by decide)]
  by_cases h6 : c.toNat = 8
  · have hc : c = Char.ofNat 8 := by rw [← h6, Char.ofNat_toNat]
    subst hc
    rw [escChar]
    rw [if_neg (by decide), if_neg (by decide), if_neg (by decide), if_neg (by decide),
      if_neg (by decide), if_pos (by decide)]
    simp only [List.cons_append, List.nil_append]
    rw [scanString_short 'b' (Char.ofNat 8) (by decide) (by decide)]
  by_cases h7 : c.toNat = 12
  · have hc : c = Char.ofNat 12 := by rw [← h7, Char.ofNat_toNat]
    subst hc
    rw [escChar]
    rw [if_neg (by decide), if_neg (by decide), if_neg (by decide), if_neg (by decide),
      if_neg (by decide), if_neg (by decide), if_pos (by decide)]
    simp only [List.cons_append, List.nil_append]
    rw [scanString_short 'f' (Char.ofNat 12) (by decide) (by decide)]
  by_cases h8 : 32 ≤ c.toNat ∧ c.toNat ≤ 126
  · rw [escChar]
    rw [if_neg h1, if_neg h2, if_neg h3, if_neg h4, if_neg h5, if_neg h6, if_neg h7, if_pos h8]
    simp only [List.cons_append, List.nil_append]
    rw [scanString_plain h1 h2]
  by_cases h9 : c.toNat < 65536
  · rw [escChar]
    rw [if_neg h1, if_neg h2, if_neg h3, if_neg h4, if_neg h5, if_neg h6, if_neg h7, if_neg h8,
      if_pos h9]
    rw [List.cons_append, List.cons_append,
      scanString_uescape h9 (char_valid_range c) acc tail, Char.ofNat_toNat]
  · rw [escChar]
    rw [if_neg h1, if_neg h2, if_neg h3, if_neg h4, if_neg h5, if_neg h6, if_neg h7, if_neg h8,
      if_neg h9]
    rw [List.append_assoc, List.cons_append, List.cons_append, List.cons_append,
      List.cons_append, scanString_surrogate (by omega) (char_toNat_lt c) acc tail,
      Char.ofNat_toNat]

theorem scanString_escape (l : List Char) : ∀ (acc rest : List Char),
    scanString acc (l.flatMap escChar ++ '"' :: rest)
      = some (String.mk (acc.reverse ++ l), rest) := by
  induction l with
  | nil =>
    intro acc rest
    rw [List.flatMap_nil, List.nil_append, scanString_close]
    simp
  | cons c l ih =>
    intro acc rest
    rw [List.flatMap_cons, List.append_assoc, scanString_escape_step, ih (c :: acc) rest]
    simp

/-! ### Numbers and scalars invert -/

/-- The continuation after a number must start with neither a digit nor a
dot (a comma, newline, brace or bracket in the documents at hand). -/
def numStop (l : List Char) : Prop :=
  ∀ c, l.head? = some c → isAsciiDigit c = false ∧ c ≠ '.'

theorem natDigits_isEmpty (n : Nat) : (natDigits n).isEmpty = false := by
  cases h : natDigits n with
  | nil => exact absurd h (natDigits_ne_nil n)
  | cons c l => simp

theorem scanNum_int (neg : Bool) (m : Nat) (rest : List Char) (hrest : numStop rest) :
    scanNumAfterSign neg (natDigits m ++ rest) = some (.jint (intSign neg m), rest) := by
  have htk := takeWhile_digits (natDigits_digit m) (fun c hc => (hrest c hc).1)
  cases rest with
  | nil =>
    simp only [scanNumAfterSign, htk.1, htk.2, natDigits_isEmpty, Bool.false_eq_true,
      if_false, digitsVal_natDigits]
  | cons c cs3 =>
    have hdot : ¬(c = '.') := (hrest c (by simp)).2
    simp only [scanNumAfterSign, htk.1, htk.2, natDigits_isEmpty, Bool.false_eq_true,
      if_false, digitsVal_natDigits]
    rw [if_neg hdot]

theorem frac_digits (bv d : Nat) :
    ∀ c ∈ List.replicate (d - (natDigits bv).length) '0' ++ natDigits bv,
      isAsciiDigit c = true := by
  intro c hc
  rcases List.mem_append.mp hc with h | h
  · rw [List.eq_of_mem_replicate h]
    decide
  · exact natDigits_digit bv c h

theorem scanNum_dec (neg : Bool) (a bv d : Nat) (hd : 1 ≤ d) (hb : bv < 10 ^ d)
    (rest : List Char) (hrest : numStop rest) :
    scanNumAfterSign neg (natDigits a ++ '.' ::
        (List.replicate (d - (natDigits bv).length) '0' ++ natDigits bv) ++ rest)
      = some (.jdec (intSign neg (a * 10 ^ d + bv)) d, rest) := by
  have hfraclen : (natDigits bv).length ≤ d := natDigits_length_le d bv hb hd
  have htk1 := @takeWhile_digits (natDigits a)
    ('.' :: ((List.replicate (d - (natDigits bv).length) '0' ++ natDigits bv) ++ rest))
    (natDigits_digit a) (head_dot_cons _)
  have htk2 := @takeWhile_digits (List.replicate (d - (natDigits bv).length) '0'
      ++ natDigits bv) rest (frac_digits bv d) (fun c hc => (hrest c hc).1)
  have hfrac_ne : (List.replicate (d - (natDigits bv).length) '0' ++ natDigits bv).isEmpty
      = false := by
    cases h : List.replicate (d - (natDigits bv).length) '0' ++ natDigits bv with
    | nil =>
      rcases List.append_eq_nil.mp h with ⟨_, h2⟩
      exact absurd h2 (natDigits_ne_nil bv)
    | cons c l => simp
  have harr : natDigits a ++ '.' ::
        (List.replicate (d - (natDigits bv).length) '0' ++ natDigits bv) ++ rest
      = natDigits a ++ '.' ::
        ((List.replicate (d - (natDigits bv).length) '0' ++ natDigits bv) ++ rest) := by
    simp
  rw [harr]
  simp only [scanNumAfterSign, htk1.1, htk1.2, natDigits_isEmpty, Bool.false_eq_true, if_false]
  rw [if_pos trivial]
  simp only [htk2.1, htk2.2, hfrac_ne, Bool.false_eq_true, if_false]
  have hval : digitsVal (natDigits a ++ (List.replicate (d - (natDigits bv).length) '0'
      ++ natDigits bv)) = a * 10 ^ d + bv := by
    rw [digitsVal_append, digitsVal_zeros, digitsVal_natDigits, digitsVal_natDigits,
      List.length_append, List.length_replicate]
    have hlen2 : d - (natDigits bv).length + (natDigits bv).length = d := by omega
    rw [hlen2]
  have hlen : (List.replicate (d - (natDigits bv).length) '0' ++ natDigits bv).length = d := by
    rw [List.length_append, List.length_replicate]
    omega
  rw [hval, hlen]

theorem digit_head_facts {c : Char} {l : List Char} {m : Nat} (h : natDigits m = c :: l) :
    isJsonWs c = false ∧ c ≠ '"' ∧ c ≠ 't' ∧ c ≠ 'f' ∧ c ≠ 'n' ∧ c ≠ '-' := by
  have hc : c ∈ natDigits m := by rw [h]; simp
  obtain ⟨k, hk, rfl⟩ := natDigits_mem m c hc
  have := digitChar_facts k hk
  exact ⟨this.2.1, this.2.2.2.1, this.2.2.2.2.2.1, this.2.2.2.2.2.2.1,
    this.2.2.2.2.2.2.2.1, this.2.2.2.2.2.2.2.2.1⟩

/-- Well-formed scalar values: floats carry at least one fractional
digit (as Python's `repr` always prints one). -/
def WFv : JVal → Prop
  | .jdec _ d => 1 ≤ d
  | _ => True

theorem scanScalar_str (cs' : List Char) :
    scanScalar ('"' :: cs') = (scanString [] cs').map (fun p => (JVal.jstr p.1, p.2)) := by
  rw [scanScalar, if_pos rfl]

theorem dropWord_true (rest : List Char) :
    dropWord ['r', 'u', 'e'] ('r' :: 'u' :: 'e' :: rest) = some rest := rfl

theorem dropWord_false (rest : List Char) :
    dropWord ['a', 'l', 's', 'e'] ('a' :: 'l' :: 's' :: 'e' :: rest) = some rest := rfl

theorem dropWord_null (rest : List Char) :
    dropWord ['u', 'l', 'l'] ('u' :: 'l' :: 'l' :: rest) = some rest := rfl

theorem scanScalar_true (rest : List Char) :
    scanScalar ('t' :: 'r' :: 'u' :: 'e' :: rest) = some (.jbool true, rest) := by
  rw [scanScalar, if_neg (by decide), if_pos rfl, dropWord_true]

theorem scanScalar_false (rest : List Char) :
    scanScalar ('f' :: 'a' :: 'l' :: 's' :: 'e' :: rest) = some (.jbool false, rest) := by
  rw [scanScalar, if_neg (by decide), if_neg (by decide), if_pos rfl, dropWord_false]

theorem scanScalar_null (rest : List Char) :
    scanScalar ('n' :: 'u' :: 'l' :: 'l' :: rest) = some (.jnull, rest) := by
  rw [scanScalar, if_neg (by decide), if_neg (by decide), if_neg (by decide), if_pos rfl,
    dropWord_null]

theorem scanScalar_num {c : Char} (h1 : c ≠ '"') (h2 : c ≠ 't') (h3 : c ≠ 'f') (h4 : c ≠ 'n')
    (cs' : List Char) : scanScalar (c :: cs') = scanNumber (c :: cs') := by
  rw [scanScalar, if_neg h1, if_neg h2, if_neg h3, if_neg h4]

theorem scanNumber_neg (cs' : List Char) :
    scanNumber ('-' :: cs') = scanNumAfterSign true cs' := by
  rw [scanNumber, if_pos rfl]

theorem scanNumber_digit {c : Char} (h : c ≠ '-') (cs' : List Char) :
    scanNumber (c :: cs') = scanNumAfterSign false (c :: cs') := by
  rw [scanNumber, if_neg h]

theorem intSign_true_natAbs {n : Int} (h : n < 0) : intSign true n.natAbs = n := by
  rw [intSign, if_pos rfl]
  omega

theorem intSign_false_natAbs {n : Int} (h : ¬(n < 0)) : intSign false n.natAbs = n := by
  rw [intSign, if_neg (by decide : ¬(false = true))]
  omega

theorem scanScalar_render (v : JVal) (hwf : WFv v) (rest : List Char) (hrest : numStop rest) :
    scanScalar (renderScalar v ++ rest) = some (v, rest) := by
  cases v with
  | jstr s =>
    have harr : renderScalar (.jstr s) ++ rest
        = '"' :: (escString s ++ ('"' :: rest)) := by
      simp [renderScalar, quoteStr]
    rw [harr, scanScalar_str, escString, scanString_escape s.data [] rest]
    simp only [List.reverse_nil, List.nil_append, Option.map_some']
  | jint n =>
    by_cases hneg : n < 0
    · have harr : renderScalar (.jint n) ++ rest = '-' :: (natDigits n.natAbs ++ rest) := by
        simp [renderScalar, intDigits, hneg]
      rw [harr, scanScalar_num (by decide) (by decide) (by decide) (by decide),
        scanNumber_neg, scanNum_int true n.natAbs rest hrest, intSign_true_natAbs hneg]
    · cases hnd : natDigits n.natAbs with
      | nil => exact absurd hnd (natDigits_ne_nil _)
      | cons c l =>
        obtain ⟨hws, hq, ht, hf, hn, hm⟩ := digit_head_facts hnd
        have harr : renderScalar (.jint n) ++ rest = c :: (l ++ rest) := by
          simp [renderScalar, intDigits, hneg, hnd]
        rw [harr, scanScalar_num hq ht hf hn, scanNumber_digit hm]
        have hre : c :: (l ++ rest) = natDigits n.natAbs ++ rest := by rw [hnd]; simp
        rw [hre, scanNum_int false n.natAbs rest hrest, intSign_false_natAbs hneg]
  | jdec m d =>
    have hd : 1 ≤ d := hwf
    have hsplit : m.natAbs / 10 ^ d * 10 ^ d + m.natAbs % 10 ^ d = m.natAbs := by
      rw [Nat.mul_comm (m.natAbs / 10 ^ d) (10 ^ d)]
      exact Nat.div_add_mod _ _
    have hb : m.natAbs % 10 ^ d < 10 ^ d := Nat.mod_lt _ (by positivity)
    by_cases hneg : m < 0
    · have harr : renderScalar (.jdec m d) ++ rest
          = '-' :: (natDigits (m.natAbs / 10 ^ d) ++ '.' ::
              (List.replicate (d - (natDigits (m.natAbs % 10 ^ d)).length) '0'
                ++ natDigits (m.natAbs % 10 ^ d)) ++ rest) := by
        simp [renderScalar, decDigits, hneg]
      rw [harr, scanScalar_num (by decide) (by decide) (by decide) (by decide),
        scanNumber_neg, scanNum_dec true _ _ d hd hb rest hrest, hsplit,
        intSign_true_natAbs hneg]
    · cases hnd : natDigits (m.natAbs / 10 ^ d) with
      | nil => exact absurd hnd (natDigits_ne_nil _)
      | cons c l =>
        obtain ⟨hws, hq, ht, hf, hn, hm⟩ := digit_head_facts hnd
        have harr : renderScalar (.jdec m d) ++ rest
            = c :: (l ++ '.' ::
                (List.replicate (d - (natDigits (m.natAbs % 10 ^ d)).length) '0'
                  ++ natDigits (m.natAbs % 10 ^ d)) ++ rest) := by
          simp [renderScalar, decDigits, hneg, hnd]
        rw [harr, scanScalar_num hq ht hf hn, scanNumber_digit hm]
        have hre : c :: (l ++ '.' ::
              (List.replicate (d - (natDigits (m.natAbs % 10 ^ d)).length) '0'
                ++ natDigits (m.natAbs % 10 ^ d)) ++ rest)
            = natDigits (m.natAbs / 10 ^ d) ++ '.' ::
              (List.replicate (d - (natDigits (m.natAbs % 10 ^ d)).length) '0'
                ++ natDigits (m.natAbs % 10 ^ d)) ++ rest := by
          rw [hnd]
          simp
        rw [hre, scanNum_dec false _ _ d hd hb rest hrest, hsplit,
          intSign_false_natAbs hneg]
  | jbool b =>
    cases b with
    | true =>
      simp only [renderScalar, List.cons_append, List.nil_append]
      exact scanScalar_true rest
    | false =>
      simp only [renderScalar, List.cons_append, List.nil_append]
      exact scanScalar_false rest
  | jnull =>
    simp only [renderScalar, List.cons_append, List.nil_append]
    exact scanScalar_null rest

/-! ### Pairs, objects and arrays invert -/

theorem wsSkip_space (l : List Char) : wsSkip (' ' :: l) = wsSkip l := by
  have h : isJsonWs ' ' = true := by decide
  simp [wsSkip, h]

theorem strMk_data (s : String) : String.mk s.data = s := rfl

theorem renderScalar_head_ws (v : JVal) (x : List Char) :
    wsSkip (renderScalar v ++ x) = renderScalar v ++ x := by
  cases v with
  | jstr s =>
    simp only [renderScalar, quoteStr, List.cons_append]
    exact wsSkip_not_ws (by decide) _
  | jint n =>
    by_cases hneg : n < 0
    · simp only [renderScalar, intDigits, hneg, if_true, ite_true, List.cons_append]
      exact wsSkip_not_ws (by decide) _
    · cases hnd : natDigits n.natAbs with
      | nil => exact absurd hnd (natDigits_ne_nil _)
      | cons c l =>
        obtain ⟨hws, _, _, _, _, _⟩ := digit_head_facts hnd
        simp only [renderScalar, intDigits, hneg, if_false, ite_false, hnd, List.cons_append]
        exact wsSkip_not_ws hws _
  | jdec m d =>
    by_cases hneg : m < 0
    · simp only [renderScalar, decDigits, hneg, if_true, ite_true, List.cons_append,
        List.append_assoc, List.singleton_append]
      exact wsSkip_not_ws (by decide) _
    · cases hnd : natDigits (m.natAbs / 10 ^ d) with
      | nil => exact absurd hnd (natDigits_ne_nil _)
      | cons c l =>
        obtain ⟨hws, _, _, _, _, _⟩ := digit_head_facts hnd
        simp only [renderScalar, decDigits, hneg, if_false, ite_false, hnd, List.nil_append,
          List.cons_append, List.append_assoc]
        exact wsSkip_not_ws hws _
  | jbool b =>
    cases b with
    | true =>
      simp only [renderScalar, List.cons_append]
      exact wsSkip_not_ws (by decide) _
    | false =>
      simp only [renderScalar, List.cons_append]
      exact wsSkip_not_ws (by decide) _
  | jnull =>
    simp only [renderScalar, List.cons_append]
    exact wsSkip_not_ws (by decide) _

theorem renderPair_shape (kv : String × JVal) (x : List Char) :
    renderPair kv ++ x
      = '"' :: (escString kv.1 ++ ('"' :: (':' :: (' ' :: (renderScalar kv.2 ++ x))))) := by
  simp [renderPair, quoteStr]

theorem scanPair_render (kv : String × JVal) (hwf : WFv kv.2) (rest : List Char)
    (hrest : numStop rest) :
    scanPair (renderPair kv ++ rest) = some (kv, rest) := by
  rw [renderPair_shape]
  have hws1 : wsSkip ('"' :: (escString kv.1
      ++ ('"' :: (':' :: (' ' :: (renderScalar kv.2 ++ rest))))))
      = '"' :: (escString kv.1 ++ ('"' :: (':' :: (' ' :: (renderScalar kv.2 ++ rest))))) :=
    wsSkip_not_ws (by decide) _
  have hstr : scanString [] (escString kv.1
      ++ ('"' :: (':' :: (' ' :: (renderScalar kv.2 ++ rest)))))
      = some (kv.1, ':' :: (' ' :: (renderScalar kv.2 ++ rest))) := by
    rw [escString, scanString_escape kv.1.data []]
    simp [strMk_data]
  have hws2 : wsSkip (':' :: (' ' :: (renderScalar kv.2 ++ rest)))
      = ':' :: (' ' :: (renderScalar kv.2 ++ rest)) := wsSkip_not_ws (by decide) _
  have hws3 : wsSkip (' ' :: (renderScalar kv.2 ++ rest)) = renderScalar kv.2 ++ rest := by
    rw [wsSkip_space, renderScalar_head_ws]
  have hsc := scanScalar_render kv.2 hwf rest hrest
  simp [scanPair, hws1, hstr, hws2, hws3, hsc]

theorem scanPair_pre {pre : List Char} (hpre : ∀ x, wsSkip (pre ++ x) = wsSkip x)
    (cs : List Char) : scanPair (pre ++ cs) = scanPair cs := by
  unfold scanPair
  rw [hpre cs]

theorem wsSkip_nl_ind (k : Nat) : ∀ x, wsSkip (('\n' :: ind k) ++ x) = wsSkip x := by
  intro x
  rw [List.cons_append, wsSkip_nl, wsSkip_ind]

theorem renderMembersTail_numStop (lvl : Nat) (ms : Record) (rest : List Char) :
    numStop (renderMembersTail lvl ms ++ rest) := by
  cases ms with
  | nil =>
    intro c hc
    simp only [renderMembersTail, List.cons_append, List.head?_cons, Option.some.injEq] at hc
    subst hc
    exact ⟨by decide, by decide⟩
  | cons kv ms =>
    intro c hc
    simp only [renderMembersTail, List.cons_append, List.head?_cons, Option.some.injEq] at hc
    subst hc
    exact ⟨by decide, by decide⟩

theorem scanMembersTail_render (lvl : Nat) (ms : Record) (hwf : ∀ kv ∈ ms, WFv kv.2) :
    ∀ f, ms.length < f → ∀ rest : List Char,
      scanMembersTail f (renderMembersTail lvl ms ++ rest) = some (ms, rest) := by
  induction ms with
  | nil =>
    intro f hf rest
    obtain ⟨f', rfl⟩ : ∃ f', f = f' + 1 := ⟨f - 1, by omega⟩
    have hshape : renderMembersTail lvl ([] : Record) ++ rest
        = '\n' :: (ind lvl ++ (rbrace :: rest)) := by
      simp [renderMembersTail]
    have hws : wsSkip ('\n' :: (ind lvl ++ (rbrace :: rest))) = rbrace :: rest := by
      rw [wsSkip_nl, wsSkip_ind, wsSkip_not_ws (by decide)]
    rw [hshape]
    simp [scanMembersTail, hws]
  | cons kv ms ih =>
    intro f hf rest
    obtain ⟨f', rfl⟩ : ∃ f', f = f' + 1 := ⟨f - 1, by omega⟩
    have hshape : renderMembersTail lvl (kv :: ms) ++ rest
        = ',' :: ('\n' :: (ind (lvl + 1)
            ++ (renderPair kv ++ (renderMembersTail lvl ms ++ rest)))) := by
      simp [renderMembersTail]
    have hpair : scanPair ('\n' :: (ind (lvl + 1)
        ++ (renderPair kv ++ (renderMembersTail lvl ms ++ rest))))
        = some (kv, renderMembersTail lvl ms ++ rest) :=
      (scanPair_pre (wsSkip_nl_ind (lvl + 1)) _).trans
        (scanPair_render kv (hwf kv (by simp)) _ (renderMembersTail_numStop lvl ms rest))
    have htail : scanMembersTail f' (renderMembersTail lvl ms ++ rest) = some (ms, rest) :=
      ih (fun kv2 h2 => hwf kv2 (by simp [h2])) f' (by simpa using hf) rest
    rw [hshape]
    have hws : wsSkip (',' :: ('\n' :: (ind (lvl + 1)
        ++ (renderPair kv ++ (renderMembersTail lvl ms ++ rest)))))
        = ',' :: ('\n' :: (ind (lvl + 1)
            ++ (renderPair kv ++ (renderMembersTail lvl ms ++ rest)))) :=
      wsSkip_not_ws (by decide) _
    simp [scanMembersTail, hws, hpair, htail]
    all_goals decide

theorem scanRecord_pre {pre : List Char} (hpre : ∀ x, wsSkip (pre ++ x) = wsSkip x)
    (f : Nat) (cs : List Char) : scanRecord f (pre ++ cs) = scanRecord f cs := by
  unfold scanRecord
  rw [hpre cs]

theorem scanRecord_render (lvl : Nat) (r : Record) (hwf : ∀ kv ∈ r, WFv kv.2) (f : Nat)
    (hf : r.length < f) (rest : List Char) :
    scanRecord f (renderRecord lvl r ++ rest) = some (r, rest) := by
  cases r with
  | nil =>
    have hshape : renderRecord lvl ([] : Record) ++ rest = lbrace :: (rbrace :: rest) := by
      simp [renderRecord]
    rw [hshape]
    have hws1 : wsSkip (lbrace :: (rbrace :: rest)) = lbrace :: (rbrace :: rest) :=
      wsSkip_not_ws (by decide) _
    have hws2 : wsSkip (rbrace :: rest) = rbrace :: rest := wsSkip_not_ws (by decide) _
    simp [scanRecord, hws1, hws2]
  | cons kv ms =>
    have hshape : renderRecord lvl (kv :: ms) ++ rest
        = lbrace :: ('\n' :: (ind (lvl + 1)
            ++ (renderPair kv ++ (renderMembersTail lvl ms ++ rest)))) := by
      simp [renderRecord]
    rw [hshape]
    have hws1 : wsSkip (lbrace :: ('\n' :: (ind (lvl + 1)
        ++ (renderPair kv ++ (renderMembersTail lvl ms ++ rest)))))
        = lbrace :: ('\n' :: (ind (lvl + 1)
            ++ (renderPair kv ++ (renderMembersTail lvl ms ++ rest)))) :=
      wsSkip_not_ws (by decide) _
    have hws2 : wsSkip ('\n' :: (ind (lvl + 1)
        ++ (renderPair kv ++ (renderMembersTail lvl ms ++ rest))))
        = '"' :: (escString kv.1 ++ ('"' :: (':' :: (' '
            :: (renderScalar kv.2 ++ (renderMembersTail lvl ms ++ rest)))))) := by
      have h1 := wsSkip_nl_ind (lvl + 1)
        (renderPair kv ++ (renderMembersTail lvl ms ++ rest))
      rw [List.cons_append] at h1
      rw [h1, renderPair_shape kv (renderMembersTail lvl ms ++ rest)]
      exact wsSkip_not_ws (by decide) _
    have hpair : scanPair ('"' :: (escString kv.1 ++ ('"' :: (':' :: (' '
        :: (renderScalar kv.2 ++ (renderMembersTail lvl ms ++ rest)))))))
        = some (kv, renderMembersTail lvl ms ++ rest) := by
      rw [← renderPair_shape kv (renderMembersTail lvl ms ++ rest)]
      exact scanPair_render kv (hwf kv (by simp)) _ (renderMembersTail_numStop lvl ms rest)
    have htail : scanMembersTail f (renderMembersTail lvl ms ++ rest) = some (ms, rest) :=
      scanMembersTail_render lvl ms (fun kv2 h2 => hwf kv2 (by simp [h2])) f
        (by simp only [List.length_cons] at hf; omega) rest
    simp [scanRecord, hws1, hws2, hpair, htail]
    all_goals decide

/-- Fuel sufficient for `scanItemsTail` on a rendered list tail. -/
def needFuel : List Record → Nat
  | [] => 1
  | r :: rs => Nat.max (r.length + 1) (needFuel rs) + 1

theorem renderRecord_cons_shape (lvl : Nat) (r : Record) :
    ∃ t, renderRecord lvl r = lbrace :: t := by
  cases r <;> exact ⟨_, rfl⟩

theorem scanItemsTail_render (rs : List Record) (hwf : ∀ r ∈ rs, ∀ kv ∈ r, WFv kv.2) :
    ∀ f, needFuel rs ≤ f → ∀ rest : List Char,
      scanItemsTail f (renderItemsTail rs ++ rest) = some (rs, rest) := by
  induction rs with
  | nil =>
    intro f hf rest
    obtain ⟨f', rfl⟩ : ∃ f', f = f' + 1 := ⟨f - 1, by simp [needFuel] at hf; omega⟩
    have hshape : renderItemsTail ([] : List Record) ++ rest = '\n' :: (']' :: rest) := by
      simp [renderItemsTail]
    have hws : wsSkip ('\n' :: (']' :: rest)) = ']' :: rest := by
      rw [wsSkip_nl, wsSkip_not_ws (by decide)]
    rw [hshape]
    simp [scanItemsTail, hws]
  | cons r rs ih =>
    intro f hf rest
    simp only [needFuel] at hf
    have hmax1 : r.length + 1 ≤ Nat.max (r.length + 1) (needFuel rs) := Nat.le_max_left _ _
    have hmax2 : needFuel rs ≤ Nat.max (r.length + 1) (needFuel rs) := Nat.le_max_right _ _
    obtain ⟨f', rfl⟩ : ∃ f', f = f' + 1 := ⟨f - 1, by omega⟩
    obtain ⟨t, ht⟩ := renderRecord_cons_shape 1 r
    have hshape : renderItemsTail (r :: rs) ++ rest
        = ',' :: ('\n' :: (ind 1 ++ (lbrace :: (t ++ (renderItemsTail rs ++ rest))))) := by
      simp only [renderItemsTail, List.cons_append, List.append_assoc, ht]
    have hrec : scanRecord f' (lbrace :: (t ++ (renderItemsTail rs ++ rest)))
        = some (r, renderItemsTail rs ++ rest) := by
      have := scanRecord_render 1 r (hwf r (by simp)) f'
        (by omega) (renderItemsTail rs ++ rest)
      rwa [ht, List.cons_append] at this
    have hrec2 : scanRecord f' ('\n' :: (ind 1
        ++ (lbrace :: (t ++ (renderItemsTail rs ++ rest)))))
        = some (r, renderItemsTail rs ++ rest) :=
      (scanRecord_pre (wsSkip_nl_ind 1) f' _).trans hrec
    have htail : scanItemsTail f' (renderItemsTail rs ++ rest) = some (rs, rest) :=
      ih (fun r2 h2 => hwf r2 (by simp [h2])) f' (by omega) rest
    rw [hshape]
    have hws : wsSkip (',' :: ('\n' :: (ind 1
        ++ (lbrace :: (t ++ (renderItemsTail rs ++ rest))))))
        = ',' :: ('\n' :: (ind 1 ++ (lbrace :: (t ++ (renderItemsTail rs ++ rest))))) :=
      wsSkip_not_ws (by decide) _
    simp [scanItemsTail, hws, hrec2, htail]

/-- Fuel sufficient for `scanArray` on a rendered array. -/
def arrNeed : List Record → Nat
  | [] => 0
  | r :: rs' => Nat.max (r.length + 1) (needFuel rs')

theorem scanArray_render (rs : List Record) (hwf : ∀ r ∈ rs, ∀ kv ∈ r, WFv kv.2) (f : Nat)
    (hf : arrNeed rs ≤ f) (rest : List Char) :
    scanArray f (renderArray rs ++ rest) = some (rs, rest) := by
  cases rs with
  | nil =>
    have hshape : renderArray ([] : List Record) ++ rest = '[' :: (']' :: rest) := by
      simp [renderArray]
    rw [hshape]
    have hws1 : wsSkip ('[' :: (']' :: rest)) = '[' :: (']' :: rest) :=
      wsSkip_not_ws (by decide) _
    have hws2 : wsSkip (']' :: rest) = ']' :: rest := wsSkip_not_ws (by decide) _
    simp [scanArray, hws1, hws2]
  | cons r rs =>
    simp only [arrNeed, Nat.max_le] at hf
    obtain ⟨t, ht⟩ := renderRecord_cons_shape 1 r
    have hshape : renderArray (r :: rs) ++ rest
        = '[' :: ('\n' :: (ind 1 ++ (lbrace :: (t ++ (renderItemsTail rs ++ rest))))) := by
      simp only [renderArray, List.cons_append, List.append_assoc, ht]
    have hrec : scanRecord f (lbrace :: (t ++ (renderItemsTail rs ++ rest)))
        = some (r, renderItemsTail rs ++ rest) := by
      have := scanRecord_render 1 r (hwf r (by simp)) f
        (by omega) (renderItemsTail rs ++ rest)
      rwa [ht, List.cons_append] at this
    have htail : scanItemsTail f (renderItemsTail rs ++ rest) = some (rs, rest) :=
      scanItemsTail_render rs (fun r2 h2 => hwf r2 (by simp [h2])) f (by omega) rest
    rw [hshape]
    have hws1 : wsSkip ('[' :: ('\n' :: (ind 1
        ++ (lbrace :: (t ++ (renderItemsTail rs ++ rest))))))
        = '[' :: ('\n' :: (ind 1 ++ (lbrace :: (t ++ (renderItemsTail rs ++ rest))))) :=
      wsSkip_not_ws (by decide) _
    have hwsin : wsSkip ('\n' :: (ind 1 ++ (lbrace :: (t ++ (renderItemsTail rs ++ rest)))))
        = lbrace :: (t ++ (renderItemsTail rs ++ rest)) := by
      have h1 := wsSkip_nl_ind 1 (lbrace :: (t ++ (renderItemsTail rs ++ rest)))
      rw [List.cons_append] at h1
      rw [h1]
      exact wsSkip_not_ws (by decide) _
    simp [scanArray, hws1, hwsin, hrec, htail]
    all_goals decide

/-! ### The rendered text always carries enough fuel -/

theorem renderPair_len (kv : String × JVal) : 1 ≤ (renderPair kv).length := by
  simp only [renderPair, quoteStr, List.cons_append, List.length_cons, List.length_append]
  omega

theorem renderMembersTail_len (lvl : Nat) (ms : Record) :
    ms.length + 2 ≤ (renderMembersTail lvl ms).length := by
  induction ms with
  | nil =>
    simp only [renderMembersTail, ind, List.length_cons, List.length_append,
      List.length_replicate, List.length_singleton, List.length_nil]
    omega
  | cons kv ms ih =>
    have hp := renderPair_len kv
    simp only [renderMembersTail, ind, List.length_cons, List.length_append,
      List.length_replicate]
    omega

theorem renderRecord_len (lvl : Nat) (r : Record) :
    r.length + 2 ≤ (renderRecord lvl r).length := by
  cases r with
  | nil => simp [renderRecord]
  | cons kv ms =>
    have hp := renderPair_len kv
    have hm := renderMembersTail_len lvl ms
    simp only [renderRecord, ind, List.length_cons, List.length_append,
      List.length_replicate]
    omega

theorem renderItemsTail_len (rs : List Record) :
    needFuel rs ≤ (renderItemsTail rs).length := by
  induction rs with
  | nil => simp [renderItemsTail, needFuel]
  | cons r rs ih =>
    have hr := renderRecord_len 1 r
    have hmax : Nat.max (r.length + 1) (needFuel rs)
        ≤ (renderRecord 1 r).length + (renderItemsTail rs).length :=
      Nat.max_le.mpr ⟨by omega, by omega⟩
    simp only [needFuel, renderItemsTail, ind, List.length_cons, List.length_append,
      List.length_replicate]
    omega

theorem renderArray_len (rs : List Record) :
    arrNeed rs ≤ (renderArray rs).length := by
  cases rs with
  | nil => simp [arrNeed]
  | cons r rs =>
    have hr := renderRecord_len 1 r
    have hi := renderItemsTail_len rs
    have hmax : Nat.max (r.length + 1) (needFuel rs)
        ≤ (renderRecord 1 r).length + (renderItemsTail rs).length :=
      Nat.max_le.mpr ⟨by omega, by omega⟩
    simp only [arrNeed, renderArray, ind, List.length_cons, List.length_append,
      List.length_replicate]
    omega

/-! ### The top-level round trip -/

/-- Well-formed data: every float value has at least one fractional
digit, as every value `repr` can print does. -/
def WFdata : PyData → Prop
  | .one r => ∀ kv ∈ r, WFv kv.2
  | .many rs => ∀ r ∈ rs, ∀ kv ∈ r, WFv kv.2

def decWFv : (v : JVal) → Decidable (WFv v)
  | .jstr _ => isTrue trivial
  | .jint _ => isTrue trivial
  | .jdec _ d => inferInstanceAs (Decidable (1 ≤ d))
  | .jbool _ => isTrue trivial
  | .jnull => isTrue trivial

instance : ∀ v : JVal, Decidable (WFv v) := decWFv

theorem data_mk (l : List Char) : (String.mk l).data = l := rfl

theorem renderArray_cons_shape (rs : List Record) :
    ∃ t, renderArray rs = '[' :: t := by
  cases rs <;> exact ⟨_, rfl⟩

theorem jsonParse_jsonDump (d : PyData) (hwf : WFdata d) :
    jsonParse (jsonDump d) = some d := by
  cases d with
  | one r =>
    obtain ⟨t, ht⟩ := renderRecord_cons_shape 0 r
    have hlen := renderRecord_len 0 r
    have hrec : scanRecord (lbrace :: t).length (lbrace :: t) = some (r, []) := by
      have := scanRecord_render 0 r hwf (lbrace :: t).length (by rw [← ht]; omega) []
      rwa [List.append_nil, ht] at this
    have hws : wsSkip (lbrace :: t) = lbrace :: t := wsSkip_not_ws (by decide) _
    simp only [jsonDump, jsonParse, data_mk, ht, hws, hrec]
    simp [wsSkip]
  | many rs =>
    obtain ⟨t, ht⟩ := renderArray_cons_shape rs
    have hlen := renderArray_len rs
    have harr : scanArray ('[' :: t).length ('[' :: t) = some (rs, []) := by
      have := scanArray_render rs hwf ('[' :: t).length (by rw [← ht]; exact hlen) []
      rwa [List.append_nil, ht] at this
    have hws : wsSkip ('[' :: t) = '[' :: t := wsSkip_not_ws (by decide) _
    simp only [jsonDump, jsonParse, data_mk, ht, hws, harr]
    have hne : ¬(('[' : Char) = lbrace) := by decide
    simp [hne, wsSkip]

/-! ### `save_results`: csv and txt serialization, file writing -/

/-- Python `str()` of a scalar value, as the txt f-string prints it. -/
def pyStr : JVal → String
  | .jstr s => s
  | .jint n => String.mk (intDigits n)
  | .jdec m d => String.mk (decDigits m d)
  | .jbool true => "True"
  | .jbool false => "False"
  | .jnull => "None"

/-- The `csv` module writes `None` as an empty field. -/
def csvStr : JVal → String
  | .jnull => ""
  | v => pyStr v

/-- QUOTE_MINIMAL: a field is quoted iff it contains the delimiter, the
quote character or a line-break character. -/
def csvNeedsQuote (s : String) : Bool :=
  s.data.any (fun c => c = ',' || c = '"' || c = '\r' || c = '\n')

/-- Render one field, doubling quotes when quoting is needed. -/
def csvField (s : String) : String :=
  if csvNeedsQuote s then
    String.mk ('"' :: (s.data.flatMap (fun c => if c = '"' then ['"', '"'] else [c]) ++ ['"']))
  else s

/-- One CSV row: fields joined by commas, terminated by CRLF. -/
def csvRow (cells : List String) : String :=
  String.intercalate "," (cells.map csvField) ++ "\r\n"

/-- `DictWriter._dict_to_list`: values in field order, the restval (an
empty field) for missing keys; a key outside the field list raises
`ValueError`. -/
def rowCells (fields : List String) (r : Record) : Except String (List String) :=
  if r.all (fun kv => fields.contains kv.1) then
    .ok (fields.map (fun k =>
      match lookupField r k with
      | some v => csvStr v
      | none => ""))
  else .error "dict contains fields not in fieldnames"

/-- The text `writeheader` plus `writerows` produce for a nonempty list,
with the header fields taken from the first record (`data[0].keys()`);
an empty list raises `IndexError` at `data[0]`. -/
def csvDump (rs : List Record) : Except String String :=
  match rs with
  | [] => .error "list index out of range"
  | r0 :: _ =>
    (rs.mapM (rowCells (r0.map (fun kv => kv.1)))).map
      (fun rows => csvRow (r0.map (fun kv => kv.1))
        ++ String.join (rows.map csvRow))

/-- The text the txt branch writes: one banner block per record. -/
def txtDump (rs : List Record) : String :=
  String.join (rs.map (fun entry =>
    "\n--- IP Geolocation Info ---\n"
      ++ String.join (entry.map (fun kv => kv.1 ++ ": " ++ pyStr kv.2 ++ "\n")) ++ "\n"))

/-- `if isinstance(data, dict): data = [data]` — the list the csv and txt
branches iterate over. -/
def asList : PyData → List Record
  | .one r => [r]
  | .many rs => rs

/-- A Python exception, identified by its message. -/
structure PyErr where
  msg : String
deriving DecidableEq

/-- The filename `save_results` uses: the given one, or the timestamped
path in `output/`. -/
def fnameOf (filename : Option String) (timestamp format : String) : String :=
  filename.getD ("output/geolocation_results_" ++ timestamp ++ "." ++ format)

/-- `Geolocator.save_results`.  `fs name text` is the file-system oracle
for `open(name, "w")` and the writes on the handle (it raises, e.g.
`PermissionError`, on unwritable paths); `timestamp` stands for
`datetime.now().strftime("%Y%m%d_%H%M%S")`.  The result is the function's
outcome — the returned filename, or the exception logged and re-raised by
the `except` clause — paired with the files successfully written.  A
format other than json/csv/txt falls through every branch: nothing is
written, yet the filename is returned and the save is logged as
successful. -/
def Geolocator.save_results (_g : Geolocator) (fs : String → String → Except PyErr Unit)
    (data : PyData) (format : String) (filename : Option String) (timestamp : String) :
    Except PyErr String × List (String × String) :=
  if format = "json" then
    match fs (fnameOf filename timestamp format) (jsonDump data) with
    | .ok _ => (.ok (fnameOf filename timestamp format),
        [(fnameOf filename timestamp format, jsonDump data)])
    | .error e => (.error e, [])
  else if format = "csv" then
    match csvDump (asList data) with
    | .error e => (.error ⟨e⟩, [])
    | .ok text =>
      match fs (fnameOf filename timestamp format) text with
      | .ok _ => (.ok (fnameOf filename timestamp format),
          [(fnameOf filename timestamp format, text)])
      | .error e => (.error e, [])
  else if format = "txt" then
    match fs (fnameOf filename timestamp format) (txtDump (asList data)) with
    | .ok _ => (.ok (fnameOf filename timestamp format),
        [(fnameOf filename timestamp format, txtDump (asList data))])
    | .error e => (.error e, [])
  else (.ok (fnameOf filename timestamp format), [])

/-- C7: JSON serialization round-trips — whatever file `save_results`
writes in json mode, parsing the written text with a JSON reader yields
records field-for-field identical to the input ResultSet.  (`WFv` only
asks every float for at least one fractional digit, which every value
printed by `repr` has.) -/
theorem save_results_json_round_trip (g : Geolocator)
    (fs : String → String → Except PyErr Unit) (rs : List Record)
    (filename : Option String) (timestamp : String)
    (hwf : ∀ r ∈ rs, ∀ kv ∈ r, WFv kv.2) :
    ∀ name text, (name, text) ∈ (g.save_results fs (.many rs) "json" filename timestamp).2 →
      jsonParse text = some (.many rs) := by
  intro name text hmem
  rcases hfs : fs (fnameOf filename timestamp "json") (jsonDump (.many rs)) with e | u
  · simp only [Geolocator.save_results, hfs] at hmem
    simp at hmem
  · simp only [Geolocator.save_results, hfs] at hmem
    simp only [if_pos rfl, List.mem_singleton, Prod.mk.injEq, if_true] at hmem
    rw [hmem.2]
    exact jsonParse_jsonDump (.many rs) hwf

/-- The oracle of a fully writable file system. -/
def fsOk : String → String → Except PyErr Unit := fun _ _ => .ok ()

/-- The spec's example of a successful GeoRecord. -/
def demoRecord : Record :=
  [("status", .jstr "success"), ("query", .jstr "8.8.8.8"),
   ("country", .jstr "United States"), ("regionName", .jstr "California"),
   ("city", .jstr "Mountain View"), ("zip", .jstr "94043"),
   ("lat", .jdec 374 1), ("lon", .jdec (-1221) 1), ("isp", .jstr "Google LLC")]

theorem save_results_json_round_trip_witness :
    (fnameOf none "20240101_000000" "json", jsonDump (.many [demoRecord]))
        ∈ (({ api_key := none } : Geolocator).save_results fsOk (.many [demoRecord]) "json"
            none "20240101_000000").2 ∧
    jsonParse (jsonDump (.many [demoRecord])) = some (.many [demoRecord]) := by
  have hmem : (fnameOf none "20240101_000000" "json", jsonDump (.many [demoRecord]))
      ∈ (({ api_key := none } : Geolocator).save_results fsOk (.many [demoRecord]) "json"
          none "20240101_000000").2 := by
    simp [Geolocator.save_results, fsOk]
  exact ⟨hmem,
    save_results_json_round_trip { api_key := none } fsOk [demoRecord] none "20240101_000000"
      (by decide) _ _ hmem⟩

/-- C9: for every format other than json, csv and txt, `save_results`
writes no file at all, yet still returns a filename — the auto-generated
timestamped path when none was given — and logs the save as successful: a
silent no-op at the public interface. -/
theorem save_results_unknown_format_noop (g : Geolocator)
    (fs : String → String → Except PyErr Unit) (data : PyData) (format : String)
    (timestamp : String) (h1 : format ≠ "json") (h2 : format ≠ "csv") (h3 : format ≠ "txt") :
    g.save_results fs data format none timestamp
      = (.ok ("output/geolocation_results_" ++ timestamp ++ "." ++ format), []) := by
  simp [Geolocator.save_results, h1, h2, h3, fnameOf]

theorem save_results_unknown_format_noop_witness :
    ("xml" ≠ "json" ∧ "xml" ≠ "csv" ∧ "xml" ≠ "txt") ∧
    ({ api_key := none } : Geolocator).save_results fsOk (.many [demoRecord]) "xml"
        none "20240101_000000"
      = (.ok ("output/geolocation_results_" ++ "20240101_000000" ++ "." ++ "xml"), []) :=
  ⟨⟨by decide, by decide, by decide⟩,
   save_results_unknown_format_noop { api_key := none } fsOk (.many [demoRecord]) "xml"
     "20240101_000000" (by decide) (by decide) (by decide)⟩

/-- C8: every serialization error in `save_results` is fatal to the save:
a raised write error in any of the three branches is re-raised to the
caller unchanged, with nothing (further) attempted and no retry; and an
empty result set in csv mode raises `IndexError` at the header
derivation (`data[0]`), which is likewise re-raised. -/
theorem save_results_error_propagates (g : Geolocator)
    (fs : String → String → Except PyErr Unit) (data : PyData)
    (filename : Option String) (timestamp : String) :
    (∀ e, fs (fnameOf filename timestamp "json") (jsonDump data) = .error e →
      g.save_results fs data "json" filename timestamp = (.error e, [])) ∧
    (∀ e text, csvDump (asList data) = .ok text →
      fs (fnameOf filename timestamp "csv") text = .error e →
      g.save_results fs data "csv" filename timestamp = (.error e, [])) ∧
    (∀ e, fs (fnameOf filename timestamp "txt") (txtDump (asList data)) = .error e →
      g.save_results fs data "txt" filename timestamp = (.error e, [])) ∧
    (asList data = [] →
      g.save_results fs data "csv" filename timestamp
        = (.error ⟨"list index out of range"⟩, [])) := by
  refine ⟨?_, ?_, ?_, ?_⟩
  · intro e hfs
    simp [Geolocator.save_results, hfs]
  · intro e text hcsv hfs
    simp [Geolocator.save_results, hcsv, hfs]
  · intro e hfs
    simp [Geolocator.save_results, hfs]
  · intro hempty
    simp [Geolocator.save_results, hempty, csvDump]

/-- A file system that refuses every write. -/
def fsDenied : String → String → Except PyErr Unit := fun _ _ =>
  .error ⟨"PermissionError: [Errno 13] Permission denied"⟩

theorem save_results_error_propagates_witness :
    (fsDenied (fnameOf none "20240101_000000" "json") (jsonDump (.many [demoRecord]))
        = .error ⟨"PermissionError: [Errno 13] Permission denied"⟩ ∧
      ({ api_key := none } : Geolocator).save_results fsDenied (.many [demoRecord]) "json"
          none "20240101_000000"
        = (.error ⟨"PermissionError: [Errno 13] Permission denied"⟩, [])) ∧
    (asList (.many []) = [] ∧
      ({ api_key := none } : Geolocator).save_results fsOk (.many []) "csv"
          none "20240101_000000"
        = (.error ⟨"list index out of range"⟩, [])) :=
  ⟨⟨rfl,
    (save_results_error_propagates { api_key := none } fsDenied (.many [demoRecord])
        none "20240101_000000").1 _ rfl⟩,
   ⟨rfl,
    (save_results_error_propagates { api_key := none } fsOk (.many [])
        none "20240101_000000").2.2.2 rfl⟩⟩

/-! ### C6: csv serialization of a single record -/

theorem lookup_cons_self (kv : String × JVal) (r : Record) :
    lookupField (kv :: r) kv.1 = some kv.2 := by
  simp [lookupField]

theorem lookup_cons_ne {kv : String × JVal} {k : String} (r : Record) (h : ¬(kv.1 = k)) :
    lookupField (kv :: r) k = lookupField r k := by
  simp [lookupField, h]

theorem map_lookup_self (r : Record) (hnodup : (r.map (fun kv => kv.1)).Nodup) :
    (r.map (fun kv => kv.1)).map (fun k =>
        match lookupField r k with
        | some v => csvStr v
        | none => "") = r.map (fun kv => csvStr kv.2) := by
  induction r with
  | nil => rfl
  | cons kv r ih =>
    simp only [List.map_cons, List.nodup_cons] at hnodup
    simp only [List.map_cons]
    congr 1
    · rw [lookup_cons_self]
    · have hcong : ∀ k ∈ r.map (fun kv2 => kv2.1),
          (fun k => match lookupField (kv :: r) k with
            | some v => csvStr v
            | none => "") k
            = (fun k => match lookupField r k with
              | some v => csvStr v
              | none => "") k := by
        intro k hk
        have hne : ¬(kv.1 = k) := fun he => hnodup.1 (he ▸ hk)
        simp only [lookup_cons_ne r hne]
      rw [List.map_congr_left hcong, ih hnodup.2]

theorem all_contains_self (r : Record) :
    r.all (fun kv => (r.map (fun kv2 => kv2.1)).contains kv.1) = true := by
  rw [List.all_eq_true]
  intro kv hkv
  have hm : kv.1 ∈ r.map (fun kv2 => kv2.1) := List.mem_map_of_mem _ hkv
  exact List.elem_eq_true_of_mem hm

theorem str_empty_append (s : String) : "" ++ s = s := by
  cases s with
  | mk l => rfl

/-- What the csv branch renders for a single plain record: header row of
the field names, then one data row of the values. -/
theorem csvDump_single (r : Record)
    (hplaink : ∀ kv ∈ r, csvNeedsQuote kv.1 = false)
    (hplainv : ∀ kv ∈ r, csvNeedsQuote (csvStr kv.2) = false)
    (hnodup : (r.map (fun kv => kv.1)).Nodup) :
    csvDump (asList (.one r))
      = .ok (String.intercalate "," (r.map (fun kv => kv.1)) ++ "\r\n"
          ++ (String.intercalate "," (r.map (fun kv => csvStr kv.2)) ++ "\r\n")) := by
  have hcells : rowCells (r.map (fun kv => kv.1)) r = .ok (r.map (fun kv => csvStr kv.2)) := by
    rw [rowCells, if_pos (all_contains_self r), map_lookup_self r hnodup]
  have hkeys : (r.map (fun kv => kv.1)).map csvField = r.map (fun kv => kv.1) := by
    have hid : ∀ k ∈ r.map (fun kv => kv.1), csvField k = id k := by
      intro k hk
      obtain ⟨kv, hkv, rfl⟩ := List.mem_map.mp hk
      rw [csvField, if_neg (by simp [hplaink kv hkv])]
      rfl
    rw [List.map_congr_left hid, List.map_id]
  have hvals : (r.map (fun kv => csvStr kv.2)).map csvField = r.map (fun kv => csvStr kv.2) := by
    have hid : ∀ s ∈ r.map (fun kv => csvStr kv.2), csvField s = id s := by
      intro s hs
      obtain ⟨kv, hkv, rfl⟩ := List.mem_map.mp hs
      rw [csvField, if_neg (by simp [hplainv kv hkv])]
      rfl
    rw [List.map_congr_left hid, List.map_id]
  have hrowk : csvRow (r.map (fun kv => kv.1))
      = String.intercalate "," (r.map (fun kv => kv.1)) ++ "\r\n" := by
    rw [csvRow, hkeys]
  have hrowv : csvRow (r.map (fun kv => csvStr kv.2))
      = String.intercalate "," (r.map (fun kv => csvStr kv.2)) ++ "\r\n" := by
    rw [csvRow, hvals]
  simp only [asList, csvDump, List.mapM_cons, List.mapM_nil, hcells, Except.map]
  simp [String.join, hrowk, hrowv, str_empty_append]

/-- C6: for a single record whose keys and rendered values need no CSV
quoting (no comma, quote or line break) and whose keys are distinct (as a
Python dict's always are), `save_results` in csv mode writes a two-line
file: a header row equal to the record's field names and one data row
whose cells are the record's values, field for field. -/
theorem save_results_csv_single_record (g : Geolocator)
    (fs : String → String → Except PyErr Unit) (r : Record)
    (filename : Option String) (timestamp : String)
    (hplaink : ∀ kv ∈ r, csvNeedsQuote kv.1 = false)
    (hplainv : ∀ kv ∈ r, csvNeedsQuote (csvStr kv.2) = false)
    (hnodup : (r.map (fun kv => kv.1)).Nodup) :
    ∀ name text, (name, text) ∈ (g.save_results fs (.one r) "csv" filename timestamp).2 →
      text = String.intercalate "," (r.map (fun kv => kv.1)) ++ "\r\n"
        ++ (String.intercalate "," (r.map (fun kv => csvStr kv.2)) ++ "\r\n") := by
  intro name text hmem
  have hdump := csvDump_single r hplaink hplainv hnodup
  rcases hfs : fs (fnameOf filename timestamp "csv")
      (String.intercalate "," (r.map (fun kv => kv.1)) ++ "\r\n"
        ++ (String.intercalate "," (r.map (fun kv => csvStr kv.2)) ++ "\r\n")) with e | u
  · simp only [Geolocator.save_results, hdump, hfs] at hmem
    simp at hmem
  · simp only [Geolocator.save_results, hdump, hfs] at hmem
    rw [if_neg (by decide : ¬(("csv" : String) = "json"))] at hmem
    exact congrArg Prod.snd (List.mem_singleton.mp hmem)

set_option maxRecDepth 2048 in
theorem save_results_csv_single_record_witness :
    ((fnameOf none "20240101_000000" "csv",
        String.intercalate "," (demoRecord.map (fun kv => kv.1)) ++ "\r\n"
          ++ (String.intercalate "," (demoRecord.map (fun kv => csvStr kv.2)) ++ "\r\n"))
      ∈ (({ api_key := none } : Geolocator).save_results fsOk (.one demoRecord) "csv"
          none "20240101_000000").2) ∧
    String.intercalate "," (demoRecord.map (fun kv => kv.1)) ++ "\r\n"
        ++ (String.intercalate "," (demoRecord.map (fun kv => csvStr kv.2)) ++ "\r\n")
      = "status,query,country,regionName,city,zip,lat,lon,isp\r\nsuccess,8.8.8.8,United States,California,Mountain View,94043,37.4,-122.1,Google LLC\r\n" := by
  have hv : demoRecord.map (fun kv => csvStr kv.2)
      = ["success", "8.8.8.8", "United States", "California", "Mountain View",
         "94043", "37.4", "-122.1", "Google LLC"] := by
    simp only [demoRecord, List.map_cons, List.map_nil]
    simp [csvStr, pyStr, decDigits, natDigits, digitChar, intDigits]
  have hplainv : ∀ kv ∈ demoRecord, csvNeedsQuote (csvStr kv.2) = false := by
    intro kv hkv
    have hms : csvStr kv.2 ∈ demoRecord.map (fun kv => csvStr kv.2) :=
      List.mem_map_of_mem _ hkv
    rw [hv] at hms
    simp only [List.mem_cons, List.not_mem_nil, or_false] at hms
    rcases hms with h | h | h | h | h | h | h | h | h <;> rw [h] <;> decide
  have hdump := csvDump_single demoRecord (by decide) hplainv (by decide)
  have hmem : (fnameOf none "20240101_000000" "csv",
        String.intercalate "," (demoRecord.map (fun kv => kv.1)) ++ "\r\n"
          ++ (String.intercalate "," (demoRecord.map (fun kv => csvStr kv.2)) ++ "\r\n"))
      ∈ (({ api_key := none } : Geolocator).save_results fsOk (.one demoRecord) "csv"
          none "20240101_000000").2 := by
    simp only [Geolocator.save_results, hdump, fsOk]
    simp
  have happ := save_results_csv_single_record { api_key := none } fsOk demoRecord none
      "20240101_000000" (by decide) hplainv (by decide) _ _ hmem
  refine ⟨hmem, happ.symm.trans ?_⟩
  rw [hv]
  decide

end Doxxer
